import Mathlib

/-!
Shallow embedding of the core of the WhatDidISign Chrome extension
(link detection in `src/chrome/content.ts`, the smart cache in
`src/utils/smartCache.ts`, the retry helper in
`src/utils/performanceOptimizer.ts`, and the AI-provider orchestration in
`src/utils/aiService.ts`), together with theorems settling the frozen
claims about the natural-language specification.

Strings are modelled as `List Char`; JS numbers appearing in scores are
modelled as `ℚ`; timestamps and counters as `Nat` (JS subtraction that
can only be observed at non-negative values maps to truncated `Nat`
subtraction, which agrees with the source on all reachable states).
-/

/-- The character `{` (kept out of literals). -/
def lbrace : Char := Char.ofNat 123

/-- The character `}` (kept out of literals). -/
def rbrace : Char := Char.ofNat 125

/-- `strStarts p s` is true when `p` is a prefix of `s` (character lists). -/
def strStarts : List Char → List Char → Bool
  | [], _ => true
  | _ :: _, [] => false
  | a :: as, b :: bs => a == b && strStarts as bs

/-- JS `text.includes(keyword)`: substring containment on character lists. -/
def includesCL (text kw : List Char) : Bool :=
  strStarts kw text ||
    (match text with
     | [] => false
     | _ :: rest => includesCL rest kw)

/-- JS `text.split(' ')`: split on every single space, keeping empty pieces. -/
def splitSp : List Char → List (List Char)
  | [] => [[]]
  | c :: cs =>
    if c == ' ' then [] :: splitSp cs
    else
      match splitSp cs with
      | w :: ws => (c :: w) :: ws
      | [] => [[c]]

/-- JS `s.toLowerCase()` on a character list (ASCII as used by the sources). -/
def lowerCL (s : List Char) : List Char := s.map Char.toLower

namespace TCDetector

/-- `KEYWORDS.terms` from `content.ts`. -/
def termsKeywords : List (List Char) :=
  ["terms of service".toList, "terms of use".toList, "terms & conditions".toList,
   "terms and conditions".toList, "user agreement".toList, "service agreement".toList,
   "legal terms".toList, "tos".toList, "eula".toList,
   "end user license agreement".toList, "licensing agreement".toList,
   "terms".toList, "conditions".toList, "user terms".toList, "service terms".toList,
   "website terms".toList, "platform terms".toList]

/-- `KEYWORDS.privacy` from `content.ts`. -/
def privacyKeywords : List (List Char) :=
  ["privacy policy".toList, "privacy notice".toList, "privacy statement".toList,
   "data policy".toList, "data protection".toList, "privacy practices".toList,
   "information collection".toList, "privacy".toList, "data usage".toList,
   "personal information".toList, "data handling".toList, "privacy rights".toList]

/-- `KEYWORDS.cookies` from `content.ts`. -/
def cookiesKeywords : List (List Char) :=
  ["cookie policy".toList, "cookie notice".toList, "cookie preferences".toList,
   "cookie settings".toList, "cookies and tracking".toList,
   "cookie information".toList, "cookies".toList, "tracking".toList]

/-- The three document-type categories of the detector. -/
inductive DocType | terms | privacy | cookies
deriving DecidableEq, BEq

instance : LawfulBEq DocType where
  eq_of_beq := by intro a b h; cases a <;> cases b <;> first | rfl | exact absurd h (by decide)
  rfl := by intro a; cases a <;> rfl

/-- `TCDetector.calculateScore`: per-category keyword ratio.  Each contained
keyword contributes its length, plus half its length again when it also
occurs as a whole space-separated token; the total is divided by the sum of
all keyword lengths of the category. -/
def calculateScore (text : List Char) (keywords : List (List Char)) : ℚ :=
  let maxScore : ℚ := (keywords.map (fun kw => (kw.length : ℚ))).sum
  let score : ℚ :=
    (keywords.map (fun kw =>
      if includesCL text kw then
        (kw.length : ℚ) +
          (if (splitSp text).any (fun w => w == kw) then (kw.length : ℚ) * (1/2) else 0)
      else 0)).sum
  if maxScore > 0 then score / maxScore else 0

/-- URL path patterns of `TCDetector.getUrlBonus`, in source iteration order. -/
def urlPatterns : List (DocType × List (List Char)) :=
  [(DocType.terms,
    ["/terms".toList, "/tos".toList, "/user-agreement".toList, "/eula".toList,
     "/service-agreement".toList, "terms-of-service".toList, "terms-of-use".toList,
     "terms-and-conditions".toList]),
   (DocType.privacy,
    ["/privacy".toList, "/privacy-policy".toList, "/data-policy".toList,
     "/privacy-notice".toList, "privacy-statement".toList, "privacy-practices".toList]),
   (DocType.cookies,
    ["/cookies".toList, "/cookie-policy".toList, "/cookie-notice".toList,
     "/cookie-preferences".toList])]

/-- `TCDetector.getUrlBonus`: the first category whose pattern occurs in the
href; a match stands for the source's flat `score: 0.5` object (the `0.5`
is added by the caller, exactly where `analyzeLink` does it). -/
def getUrlBonus (href : List Char) : Option DocType :=
  match urlPatterns.find? (fun p => p.2.any (fun pat => includesCL href pat)) with
  | some (ty, _) => some ty
  | none => none

/-- A detected legal-document link (`DetectedLink` of `types/index.ts`,
without the opaque DOM element handle). -/
structure DetectedLink where
  url : List Char
  text : List Char
  type : DocType
  confidence : ℚ
deriving DecidableEq

/-- An anchor element as the classifier sees it: href, visible text,
aria-label and title attributes. -/
structure Anchor where
  href : List Char
  text : List Char
  ariaLabel : List Char
  title : List Char

/-- The combined lowercase string `text ariaLabel title href` built by
`analyzeLink`. -/
def combinedText (a : Anchor) : List Char :=
  lowerCL a.text ++ [' '] ++ lowerCL a.ariaLabel ++ [' '] ++
    lowerCL a.title ++ [' '] ++ lowerCL a.href

/-- The keyword list of each category. -/
def keywordsOf : DocType → List (List Char)
  | DocType.terms => termsKeywords
  | DocType.privacy => privacyKeywords
  | DocType.cookies => cookiesKeywords

/-- The three per-category scores of `analyzeLink`, with the URL bonus
of `0.5` added to the matching category. -/
def typeScores (a : Anchor) : DocType → ℚ := fun ty =>
  calculateScore (combinedText a) (keywordsOf ty) +
    (if getUrlBonus (lowerCL a.href) = some ty then (1/2 : ℚ) else 0)

/-- The argmax reduction of `analyzeLink` over `Object.entries(typeScores)`
in entry order terms, privacy, cookies; on ties the later entry wins,
exactly as the source's `reduce` with a strict `>` comparison. -/
def bestType (scores : DocType → ℚ) : DocType :=
  [DocType.privacy, DocType.cookies].foldl
    (fun a b => if scores a > scores b then a else b) DocType.terms

/-- `TCDetector.analyzeLink`: classify one anchor, emitting a `DetectedLink`
when the best category score clears the `0.1` acceptance threshold. -/
def analyzeLink (a : Anchor) : Option DetectedLink :=
  let scores := typeScores a
  let best := bestType scores
  let confidence := scores best
  if confidence > 1/10 then
    some { url := a.href, text := a.text, type := best, confidence := confidence }
  else
    none

/-- Total length of a keyword list (the denominator of `calculateScore`,
as a natural number). -/
def lenSum (kws : List (List Char)) : Nat := (kws.map List.length).sum

/-- Twice the keyword score accumulated by `calculateScore`, as a natural
number (each exact-token bonus is half a keyword length, so doubling makes
everything integral). -/
def scoreNumTwice (text : List Char) (kws : List (List Char)) : Nat :=
  (kws.map (fun kw =>
    if includesCL text kw then
      2 * kw.length + (if (splitSp text).any (fun w => w == kw) then kw.length else 0)
    else 0)).sum

/-- The mutable state of the `TCDetector` content-script object:
the accumulated candidate set, the set of attached visual indicators
(recorded by target url), the mutation-observer connection flag and the
`isInitialized` flag. -/
structure TCState where
  detectedLinks : List DetectedLink
  indicators : List (List Char)
  observing : Bool
  isInitialized : Bool

/-- The freshly constructed detector: empty candidate set, nothing attached. -/
def TCState.initial : TCState :=
  { detectedLinks := [], indicators := [], observing := false, isInitialized := false }

/-- `TCDetector.isDuplicate`: a candidate is a duplicate when some already
committed candidate shares its url, or shares both its text and its type. -/
def isDuplicate (committed : List DetectedLink) (link : DetectedLink) : Bool :=
  committed.any (fun existing =>
    existing.url == link.url ||
      (existing.text == link.text && existing.type == link.type))

/-- The first pass of `scanForLinks`: analyze every anchor of the page in
order, collecting each classification that is not a duplicate of the
committed candidate set (attaching an indicator for each acceptance). -/
def mainPass (committed : List DetectedLink) (anchors : List Anchor) :
    List DetectedLink :=
  anchors.foldl (fun newLinks a =>
    match analyzeLink a with
    | some d => if ¬ isDuplicate committed d then newLinks ++ [d] else newLinks
    | none => newLinks) []

/-- `scanFooterLinks`: the fallback sweep over anchors found in footer-like
containers and the bottom fifth of the page (which anchors those are is
decided by DOM geometry, abstracted here as the given list); acceptances
additionally must not repeat a url already accepted by this same sweep. -/
def footerPass (committed : List DetectedLink) (anchors : List Anchor) :
    List DetectedLink :=
  anchors.foldl (fun footerLinks a =>
    match analyzeLink a with
    | some d =>
      if ¬ isDuplicate committed d ∧
          ¬ footerLinks.any (fun existing => existing.url = d.url) then
        footerLinks ++ [d]
      else footerLinks
    | none => footerLinks) []

/-- The links one run of `TCDetector.scanForLinks` accepts: the main pass
over all anchors, then — only when it accepted nothing — the footer sweep. -/
def scanNewLinks (st : TCState) (anchors footerAnchors : List Anchor) :
    List DetectedLink :=
  let newLinks := mainPass st.detectedLinks anchors
  if newLinks.length = 0 then newLinks ++ footerPass st.detectedLinks footerAnchors
  else newLinks

/-- One run of `TCDetector.scanForLinks`: the accepted links are appended
to the candidate set and their indicators attached. -/
def scanForLinks (st : TCState) (anchors footerAnchors : List Anchor) : TCState :=
  let newLinks := scanNewLinks st anchors footerAnchors
  { st with
    detectedLinks := st.detectedLinks ++ newLinks,
    indicators := st.indicators ++ newLinks.map (fun d => d.url) }

/-- The synchronous part of `TCDetector.init`: a no-op when already
initialized, otherwise mark initialized and start observing mutations (the
scans it schedules run asynchronously and are modelled as separate
`scanForLinks` steps). -/
def init (st : TCState) : TCState :=
  if st.isInitialized then st
  else { st with isInitialized := true, observing := true }

/-- `TCDetector.destroy`: disconnect the observer, clear the initialized
flag, and remove every attached indicator. -/
def destroy (st : TCState) : TCState :=
  { st with observing := false, isInitialized := false, indicators := [] }

/-- `TCDetector.getDetectedLinks`: the current candidate set. -/
def getDetectedLinks (st : TCState) : List DetectedLink :=
  st.detectedLinks

end TCDetector

namespace SmartCache

/-- One value of the cache object of `smartCache.ts`: the cached payload,
its creation timestamp, its last-access timestamp and its hit counter. -/
structure CacheEntry (α : Type) where
  data : α
  timestamp : Nat
  lastAccessed : Nat
  hits : Nat
deriving DecidableEq

/-- The cache: a JS object modelled as an insertion-ordered association
list with (in every reachable state) pairwise distinct keys. -/
abbrev Cache (α : Type) : Type := List (String × CacheEntry α)

/-- Property lookup `cache[url]`. -/
def objGet {α : Type} (c : Cache α) (url : String) : Option (CacheEntry α) :=
  (List.find? (fun p => p.1 == url) c).map (fun p => p.2)

/-- Property write `cache[url] = e`: update in place when the key exists,
append otherwise (JS object key order). -/
def objSet {α : Type} (c : Cache α) (url : String) (e : CacheEntry α) : Cache α :=
  if List.any c (fun p => p.1 == url) then
    List.map (fun p => if p.1 == url then (url, e) else p) c
  else
    c ++ [(url, e)]

/-- Property removal `delete cache[url]`. -/
def objDelete {α : Type} (c : Cache α) (url : String) : Cache α :=
  List.filter (fun p => ¬ p.1 == url) c

/-- `MAX_CACHE_SIZE` of `smartCache.ts`. -/
def MAX_CACHE_SIZE : Nat := 100

/-- `CACHE_EXPIRY_HOURS * 60 * 60 * 1000`: the TTL in milliseconds. -/
def EXPIRY_MS : Nat := 24 * 60 * 60 * 1000

/-- The LRU reduction of `SmartCache.set` over `Object.keys(cache)`:
starting from the first key, replace the accumulator whenever a later
key has a strictly smaller `lastAccessed` (the `!cache[oldest]` guard of
the source is dead, since the reduced keys all index live entries). -/
def lruKey {α : Type} (c : Cache α) : String :=
  match c with
  | [] => ""
  | p₀ :: rest =>
    (rest.foldl (fun oldest p =>
      if p.2.lastAccessed < oldest.2.lastAccessed then p else oldest) p₀).1

/-- `SmartCache.get` at time `now`: absent key gives `none`; an entry past
its TTL is deleted and gives `none`; otherwise the hit counter is bumped,
the last-access time refreshed, and the payload returned. -/
def get {α : Type} (now : Nat) (c : Cache α) (url : String) :
    Option α × Cache α :=
  match objGet c url with
  | none => (none, c)
  | some cached =>
    if now - cached.timestamp > EXPIRY_MS then
      (none, objDelete c url)
    else
      (some cached.data,
        objSet c url { cached with hits := cached.hits + 1, lastAccessed := now })

/-- `SmartCache.set` at time `now`, with the size bound `maxSize`
(`MAX_CACHE_SIZE = 100` in the source): when the store is full, delete the
least-recently-accessed entry, then write a fresh entry for `url`. -/
def set {α : Type} (maxSize : Nat) (now : Nat) (c : Cache α) (url : String)
    (data : α) : Cache α :=
  let c₁ := if maxSize ≤ c.length then objDelete c (lruKey c) else c
  objSet c₁ url { data := data, timestamp := now, lastAccessed := now, hits := 0 }

/-- The keys of a cache, in insertion order. -/
def keys {α : Type} (c : Cache α) : List String := c.map (fun p => p.1)

end SmartCache

/-- A JSON value, as produced by `JSON.parse`. -/
inductive Json where
  | null
  | bool (b : Bool)
  | num (q : ℚ)
  | str (s : List Char)
  | arr (elems : List Json)
  | obj (fields : List (List Char × Json))

/-- JSON insignificant whitespace. -/
def skipWs (s : List Char) : List Char :=
  s.dropWhile (fun c => c == ' ' || c == '\t' || c == '\n' || c == '\r')

/-- Value of a hexadecimal digit. -/
def hexVal (c : Char) : Option Nat :=
  if '0' ≤ c ∧ c ≤ '9' then some (c.toNat - 48)
  else if 'a' ≤ c ∧ c ≤ 'f' then some (c.toNat - 87)
  else if 'A' ≤ c ∧ c ≤ 'F' then some (c.toNat - 70)
  else none

/-- Decimal digits folded into a natural number. -/
def digitsToNat (ds : List Char) : Nat :=
  ds.foldl (fun a c => a * 10 + (c.toNat - 48)) 0

/-- Parse the body of a JSON string after the opening quote, returning the
decoded characters and the remainder after the closing quote. -/
def parseStrBody : Nat → List Char → Option (List Char × List Char)
  | 0, _ => none
  | fuel+1, s =>
    match s with
    | [] => none
    | c :: rest =>
      if c == '"' then some ([], rest)
      else if c == '\\' then
        match rest with
        | [] => none
        | e :: rest₂ =>
          if e == 'u' then
            match rest₂ with
            | h₁ :: h₂ :: h₃ :: h₄ :: rest₃ =>
              match hexVal h₁, hexVal h₂, hexVal h₃, hexVal h₄ with
              | some a, some b, some c₃, some d =>
                (parseStrBody fuel rest₃).map
                  (fun p => (Char.ofNat (((a * 16 + b) * 16 + c₃) * 16 + d) :: p.1, p.2))
              | _, _, _, _ => none
            | _ => none
          else
            match
              (if e == '"' then some '"'
               else if e == '\\' then some '\\'
               else if e == '/' then some '/'
               else if e == 'b' then some (Char.ofNat 8)
               else if e == 'f' then some (Char.ofNat 12)
               else if e == 'n' then some '\n'
               else if e == 'r' then some (Char.ofNat 13)
               else if e == 't' then some '\t'
               else none) with
            | some ec => (parseStrBody fuel rest₂).map (fun p => (ec :: p.1, p.2))
            | none => none
      else (parseStrBody fuel rest).map (fun p => (c :: p.1, p.2))

/-- Parse a JSON number (sign, integer part, optional fraction and
exponent), returning its exact rational value and the remainder. -/
def parseNumber (s : List Char) : Option (ℚ × List Char) :=
  let (neg, s₁) := match s with
    | '-' :: r => (true, r)
    | _ => (false, s)
  let intDs := s₁.takeWhile Char.isDigit
  let s₂ := s₁.dropWhile Char.isDigit
  if intDs.isEmpty then none
  else
    let fracRes : Option (List Char × List Char) := match s₂ with
      | '.' :: r =>
        let ds := r.takeWhile Char.isDigit
        if ds.isEmpty then none else some (ds, r.dropWhile Char.isDigit)
      | _ => some ([], s₂)
    match fracRes with
    | none => none
    | some (fracDs, s₃) =>
      let expRes : Option (Bool × List Char × List Char) := match s₃ with
        | 'e' :: r | 'E' :: r =>
          let (en, r₁) := match r with
            | '-' :: r₂ => (true, r₂)
            | '+' :: r₂ => (false, r₂)
            | _ => (false, r)
          let ds := r₁.takeWhile Char.isDigit
          if ds.isEmpty then none else some (en, ds, r₁.dropWhile Char.isDigit)
        | _ => some (false, [], s₃)
      match expRes with
      | none => none
      | some (expNeg, expDs, s₄) =>
        let mag : ℚ :=
          ((digitsToNat intDs : ℚ) +
            (digitsToNat fracDs : ℚ) / (10 : ℚ) ^ fracDs.length) *
            ((10 : ℚ) ^ digitsToNat expDs) ^ (if expNeg then (-1 : ℤ) else 1)
        some ((if neg then -mag else mag), s₄)

/-- Parse a comma-separated list of values (after the first element is
known to start here) up to a closing bracket, given a parser `pv` for one
value. -/
def parseElemsWith (pv : List Char → Option (Json × List Char)) (close : Char) :
    Nat → List Char → Option (List Json × List Char)
  | 0, _ => none
  | fuel+1, s => do
    let (v, r) ← pv s
    match skipWs r with
    | ',' :: r₂ =>
      let (vs, r₃) ← parseElemsWith pv close fuel (skipWs r₂)
      some (v :: vs, r₃)
    | c :: r₂ => if c == close then some ([v], r₂) else none
    | [] => none

/-- Parse a comma-separated list of string-keyed fields up to the closing
brace, given a parser `pv` for one value. -/
def parseFieldsWith (pv : List Char → Option (Json × List Char)) :
    Nat → List Char → Option (List (List Char × Json) × List Char)
  | 0, _ => none
  | fuel+1, s => do
    match skipWs s with
    | '"' :: r =>
      let (key, r₁) ← parseStrBody (r.length + 1) r
      match skipWs r₁ with
      | ':' :: r₂ => do
        let (v, r₃) ← pv (skipWs r₂)
        match skipWs r₃ with
        | ',' :: r₄ =>
          let (fs, r₅) ← parseFieldsWith pv fuel r₄
          some ((key, v) :: fs, r₅)
        | c :: r₄ => if c == rbrace then some ([(key, v)], r₄) else none
        | [] => none
      | _ => none
    | _ => none

/-- Parse one JSON value at the head of the input (which must already have
leading whitespace stripped). -/
def parseVal : Nat → List Char → Option (Json × List Char)
  | 0, _ => none
  | fuel+1, s =>
    if strStarts "null".toList s then some (Json.null, s.drop 4)
    else if strStarts "true".toList s then some (Json.bool true, s.drop 4)
    else if strStarts "false".toList s then some (Json.bool false, s.drop 5)
    else
      match s with
      | [] => none
      | c :: rest =>
        if c == '"' then
          (parseStrBody (rest.length + 1) rest).map (fun p => (Json.str p.1, p.2))
        else if c == lbrace then
          match skipWs rest with
          | c₂ :: r₂ =>
            if c₂ == rbrace then some (Json.obj [], r₂)
            else
              (parseFieldsWith (fun t => parseVal fuel t) fuel (skipWs rest)).map
                (fun p => (Json.obj p.1, p.2))
          | [] => none
        else if c == '[' then
          match skipWs rest with
          | ']' :: r₂ => some (Json.arr [], r₂)
          | r₂ =>
            (parseElemsWith (fun t => parseVal fuel t) ']' fuel r₂).map
              (fun p => (Json.arr p.1, p.2))
        else
          parseNumber s |>.map (fun p => (Json.num p.1, p.2))

/-- `JSON.parse`: parse a complete JSON text (a single value surrounded by
optional whitespace); `none` models a thrown `SyntaxError`. -/
def jsonParse (s : List Char) : Option Json :=
  match parseVal (s.length + 1) (skipWs s) with
  | some (v, rest) => if (skipWs rest).isEmpty then some v else none
  | none => none

/-- JS truthiness of a JSON value. -/
def truthy : Json → Bool
  | Json.null => false
  | Json.bool b => b
  | Json.num q => decide (q ≠ 0)
  | Json.str s => !s.isEmpty
  | Json.arr _ => true
  | Json.obj _ => true

/-- JS `a || b`. -/
def jsOr (a b : Json) : Json := if truthy a then a else b

/-- JS member access `v.name`: `none` models the `TypeError` thrown on
`null`; accessing an absent field (or a field of a primitive) gives
`undefined`, collapsed to `Json.null`. -/
def jsGet (v : Json) (name : List Char) : Option Json :=
  match v with
  | Json.null => none
  | Json.obj fields =>
    some (((fields.find? (fun f => f.1 == name)).map (fun f => f.2)).getD Json.null)
  | _ => some Json.null

/-- `Array.isArray`. -/
def isArray : Json → Bool
  | Json.arr _ => true
  | _ => false

/-- The elements of a JSON array (`[]` on other values; only used behind
an `isArray` test). -/
def asArr : Json → List Json
  | Json.arr xs => xs
  | _ => []

/-- JS `Number(x) || 0` as used on `parsed.riskScore`: `NaN` (and the
string coercions, which no claim touches) collapse to `0`. -/
def jsToNumOr0 : Json → ℚ
  | Json.num q => q
  | Json.bool b => if b then 1 else 0
  | _ => 0

namespace AIService

/-- One sanitized red flag of an `AIResponse`; `description` and `quote`
keep whatever (possibly non-string) truthy JSON value the model returned,
exactly as the source's `flag.description || '...'` does. -/
structure RedFlag where
  type : List Char
  description : Json
  severity : List Char
  quote : Json

/-- One sanitized data right of an `AIResponse`. -/
structure DataRight where
  type : List Char
  description : Json
  available : Bool
  process : Json

/-- The `AIResponse` interface of `aiService.ts`: key points are the raw
JSON array elements (`slice` performs no element coercion). -/
structure AIResponse where
  keyPoints : List Json
  redFlags : List RedFlag
  dataRights : List DataRight
  riskScore : ℚ

/-- The recognised red-flag categories. -/
def flagTypes : List (List Char) :=
  ["arbitration".toList, "auto-renewal".toList, "data-sharing".toList,
   "liability".toList, "termination".toList]

/-- The recognised severities. -/
def sevNames : List (List Char) :=
  ["low".toList, "medium".toList, "high".toList]

/-- The recognised data-right categories. -/
def rightTypes : List (List Char) :=
  ["access".toList, "deletion".toList, "portability".toList,
   "correction".toList, "opt-out".toList]

/-- Sanitize one entry of `parsed.redFlags` (`none` models the `TypeError`
thrown when the entry is `null`). -/
def sanitizeFlag (flag : Json) : Option RedFlag := do
  let ty ← jsGet flag ("type".toList)
  let desc ← jsGet flag ("description".toList)
  let sev ← jsGet flag ("severity".toList)
  let quote ← jsGet flag ("quote".toList)
  pure {
    type :=
      match ty with
      | Json.str s => if flagTypes.any (fun t => t == s) then s else "other".toList
      | _ => "other".toList,
    description := jsOr desc (Json.str ("No description provided".toList)),
    severity :=
      match sev with
      | Json.str s => if sevNames.any (fun t => t == s) then s else "medium".toList
      | _ => "medium".toList,
    quote := jsOr quote (Json.str []) }

/-- Sanitize one entry of `parsed.dataRights`. -/
def sanitizeRight (right : Json) : Option DataRight := do
  let ty ← jsGet right ("type".toList)
  let desc ← jsGet right ("description".toList)
  let av ← jsGet right ("available".toList)
  let proc ← jsGet right ("process".toList)
  pure {
    type :=
      match ty with
      | Json.str s => if rightTypes.any (fun t => t == s) then s else "access".toList
      | _ => "access".toList,
    description := jsOr desc (Json.str ("No description provided".toList)),
    available := truthy av,
    process := jsOr proc (Json.str ("Not specified".toList)) }

/-- The validate-and-coerce block of `parseAIResponse` applied to the
parsed JSON (`none` models a `TypeError` escaping to the `catch`). -/
def sanitize (parsed : Json) : Option AIResponse := do
  let kp ← jsGet parsed ("keyPoints".toList)
  let rf ← jsGet parsed ("redFlags".toList)
  let dr ← jsGet parsed ("dataRights".toList)
  let rs ← jsGet parsed ("riskScore".toList)
  let redFlags ←
    if isArray rf then ((asArr rf).take 5).mapM sanitizeFlag else pure []
  let dataRights ←
    if isArray dr then ((asArr dr).take 5).mapM sanitizeRight else pure []
  pure {
    keyPoints := if isArray kp then (asArr kp).take 6 else [],
    redFlags := redFlags,
    dataRights := dataRights,
    riskScore := min 1 (max 0 (jsToNumOr0 rs)) }

/-- The regex `/\x7b[\s\S]*\x7d/` applied to the response text: the match
runs from the first opening brace to the last closing brace, and exists
exactly when some closing brace follows the first opening brace. -/
def jsonMatchExtract (s : List Char) : Option (List Char) :=
  match s.findIdx? (fun c => c == lbrace), s.reverse.findIdx? (fun c => c == rbrace) with
  | some p, some rq =>
    let q := s.length - 1 - rq
    if p < q then some ((s.drop p).take (q - p + 1)) else none
  | _, _ => none

/-- The degraded fallback `AIResponse` returned when parsing fails. -/
def fallbackResponse : AIResponse :=
  { keyPoints :=
      [Json.str ("Unable to parse the document. The content may be too complex or corrupted.".toList)],
    redFlags := [],
    dataRights := [],
    riskScore := 0 }

/-- `AIService.parseAIResponse`: extract the brace-delimited portion when
one exists, `JSON.parse` it, sanitize the result; any thrown error
(syntax error from the parse, or member access on `null`) falls back to
`fallbackResponse`. -/
def parseAIResponse (responseText : List Char) : AIResponse :=
  let jsonText := (jsonMatchExtract responseText).getD responseText
  match jsonParse jsonText with
  | none => fallbackResponse
  | some parsed =>
    match sanitize parsed with
    | some r => r
    | none => fallbackResponse

end AIService

/-- A thrown JS `Error` as the retry helper and the orchestrator observe
it: a message, and an optional numeric `status` property (absent on plain
errors). -/
structure JsError where
  message : List Char
  status : Option Int
deriving DecidableEq

namespace RetryHelper

/-- `RetryHelper.shouldNotRetry`: authentication / client / quota errors
are fatal — match on the lowercased message, or on a 4xx `status`
(`undefined` compares false). -/
def shouldNotRetry (e : JsError) : Bool :=
  let msg := lowerCL e.message
  includesCL msg ("unauthorized".toList) ||
  includesCL msg ("forbidden".toList) ||
  includesCL msg ("invalid api key".toList) ||
  includesCL msg ("quota exceeded".toList) ||
  (match e.status with
   | some s => decide (400 ≤ s) && decide (s < 500)
   | none => false)

/-- The attempt loop of `RetryHelper.withRetry`, instrumented with the
number of invocations of the operation: `op i` is the outcome of its
`i`-th invocation, `attempt` the current 0-based attempt index and
`remaining` the attempts still allowed after this one (initially
`maxRetries`).  The backoff waits (`delay * 2 ^ attempt`) only consume
time and are not observable in the result. -/
def withRetryAux {α : Type} (op : Nat → Except JsError α) :
    Nat → Nat → Except JsError α × Nat
  | attempt, remaining =>
    match op attempt with
    | .ok v => (.ok v, attempt + 1)
    | .error e =>
      if shouldNotRetry e then (.error e, attempt + 1)
      else
        match remaining with
        | 0 => (.error e, attempt + 1)
        | r + 1 => withRetryAux op (attempt + 1) r

/-- `RetryHelper.withRetry` with `maxRetries` attempts left after the
first (source default `3`): the final outcome. -/
def withRetry {α : Type} (op : Nat → Except JsError α) (maxRetries : Nat) :
    Except JsError α :=
  (withRetryAux op 0 maxRetries).1

/-- How many times `withRetry` invoked its operation. -/
def invocations {α : Type} (op : Nat → Except JsError α) (maxRetries : Nat) : Nat :=
  (withRetryAux op 0 maxRetries).2

end RetryHelper

namespace AIService

/-- Per-key usage statistics (`requestCounts` map values). -/
structure KeyStats where
  count : Nat
  resetTime : Nat
deriving DecidableEq

/-- The static state of `AIService`: the rotation pointer and the per-key
request-count map. -/
structure AIState where
  currentKeyIndex : Nat
  requestCounts : String → Option KeyStats

/-- The fresh static state: pointer `0`, empty map. -/
def AIState.initial : AIState :=
  { currentKeyIndex := 0, requestCounts := fun _ => none }

/-- `REQUESTS_PER_MINUTE`. -/
def REQUESTS_PER_MINUTE : Nat := 15

/-- `MINUTE_IN_MS`. -/
def MINUTE_IN_MS : Nat := 60 * 1000

/-- `requestCounts.set(key, stats)`. -/
def setCount (st : AIState) (key : String) (ks : KeyStats) : AIState :=
  { st with requestCounts := fun k => if k = key then some ks else st.requestCounts k }

/-- The orchestrator's configuration: the build-injected `DEFAULT_API_KEYS`
pool and the user's `provider.apiKey`. -/
structure AIConfig where
  defaultKeys : List String
  providerApiKey : String

/-- `hasDefaultApiKeys()`: every pool key is truthy, starts with `AIzaSy`,
is longer than 30 characters, and is not a placeholder. -/
def hasDefaultApiKeys (keys : List String) : Bool :=
  keys.all (fun key =>
    !(key == "") &&
    strStarts ("AIzaSy".toList) key.toList &&
    decide (30 < key.length) &&
    !includesCL key.toList ("_REPLACE_WITH_YOUR_".toList) &&
    !includesCL key.toList ("_HERE".toList))

/-- `AIService.getNextApiKey`: read the key under the rotation pointer and
advance the pointer modulo the pool size. -/
def getNextApiKey (keys : List String) (st : AIState) : String × AIState :=
  (keys.getD st.currentKeyIndex "",
   { st with currentKeyIndex := (st.currentKeyIndex + 1) % keys.length })

/-- `AIService.isKeyRateLimited` at time `now` — note the source mutates
the stats (window reset) as a side effect, hence the returned state. -/
def isKeyRateLimited (now : Nat) (key : String) (st : AIState) : Bool × AIState :=
  match st.requestCounts key with
  | none => (false, st)
  | some ks =>
    if MINUTE_IN_MS ≤ now - ks.resetTime then
      (false, setCount st key { count := 0, resetTime := now })
    else
      (decide (REQUESTS_PER_MINUTE ≤ ks.count), st)

/-- `AIService.incrementKeyUsage` at time `now`. -/
def incrementKeyUsage (now : Nat) (key : String) (st : AIState) : AIState :=
  match st.requestCounts key with
  | none => setCount st key { count := 1, resetTime := now }
  | some ks =>
    if MINUTE_IN_MS ≤ now - ks.resetTime then
      setCount st key { count := 1, resetTime := now }
    else
      setCount st key { ks with count := ks.count + 1 }

/-- The `for` loop of `getAvailableApiKey`: probe up to `fuel` rotated pool
keys (the source uses `DEFAULT_API_KEYS.length` iterations), returning the
first that is not rate limited. -/
def rotateProbe (keys : List String) (now : Nat) :
    Nat → AIState → Option String × AIState
  | 0, st => (none, st)
  | n + 1, st =>
    let p := getNextApiKey keys st
    let q := isKeyRateLimited now p.1 p.2
    if q.1 then rotateProbe keys now n q.2 else (some p.1, q.2)

/-- The tail of `getAvailableApiKey` after the rotation loop: the
user-supplied key when usable, else — with a configured pool — the next
rotated key anyway, else the fatal configuration error. -/
def fallbackKey (cfg : AIConfig) (now : Nat) (st : AIState) :
    Except JsError String × AIState :=
  let afterUser : AIState → Except JsError String × AIState := fun st₁ =>
    if hasDefaultApiKeys cfg.defaultKeys then
      let p := getNextApiKey cfg.defaultKeys st₁
      (.ok p.1, p.2)
    else
      (.error
        { message :=
            ("No API keys configured. Please add your Google AI API key in settings or contact support.".toList),
          status := none }, st₁)
  if !(cfg.providerApiKey == "") && !(cfg.providerApiKey.trim == "") then
    let q := isKeyRateLimited now cfg.providerApiKey st
    if !q.1 then (.ok cfg.providerApiKey, q.2) else afterUser q.2
  else afterUser st

/-- `AIService.getAvailableApiKey` at time `now`. -/
def getAvailableApiKey (cfg : AIConfig) (now : Nat) (st : AIState) :
    Except JsError String × AIState :=
  if hasDefaultApiKeys cfg.defaultKeys then
    match rotateProbe cfg.defaultKeys now cfg.defaultKeys.length st with
    | (some key, st₁) => (.ok key, st₁)
    | (none, st₁) => fallbackKey cfg now st₁
  else fallbackKey cfg now st

/-- `AIService.callGeminiAPI` at time `now`: select a credential, record a
usage increment against it, then perform the single `fetch` of the remote
endpoint — `net i` abstracts the outcome of the `i`-th remote invocation
performed by this call (an HTTP-level failure is the `JsError` the source
throws for it), and the returned `Nat` counts those invocations.  The
response text of a successful fetch goes through `parseAIResponse`. -/
def callGeminiAPI (cfg : AIConfig) (net : Nat → Except JsError (List Char))
    (now : Nat) (st : AIState) : Except JsError AIResponse × AIState × Nat :=
  match getAvailableApiKey cfg now st with
  | (.error e, st₁) => (.error e, st₁, 0)
  | (.ok key, st₁) =>
    let st₂ := incrementKeyUsage now key st₁
    match net 0 with
    | .error e => (.error e, st₂, 1)
    | .ok responseText => (.ok (parseAIResponse responseText), st₂, 1)

/-- The state update a single dispatch performs (`callGeminiAPI` lines
140–141: key selection followed by the usage increment). -/
def dispatchStep (cfg : AIConfig) (st : AIState) (now : Nat) : AIState :=
  match getAvailableApiKey cfg now st with
  | (.error _, st₁) => st₁
  | (.ok key, st₁) => incrementKeyUsage now key st₁

/-- How many of the first `k` dispatches (0-based) from the fresh state
used pool slot `i`: slot `i` is used at dispatches `i, i+4, i+8, ...`. -/
def usedCount (k i : Nat) : Nat := k / 4 + (if i < k % 4 then 1 else 0)

/-- The orchestrator's static state after one dispatch at each time of
`ts`, in order, starting from the fresh state. -/
def dispatchAll (cfg : AIConfig) (ts : List Nat) : AIState :=
  ts.foldl (fun st t => dispatchStep cfg st t) AIState.initial

/-- The rotation invariant after `k` dispatches from the fresh state, all
within the rate window starting at `t0`: the pointer sits at `k % 4`, and
pool slot `i` carries exactly `usedCount k i` recorded requests with a
window start inside `[t0, t0 + MINUTE_IN_MS)`. -/
def balanced (ks : List String) (t0 k : Nat) (st : AIState) : Prop :=
  st.currentKeyIndex = k % 4 ∧
  ∀ i, i < 4 →
    (usedCount k i = 0 → st.requestCounts (ks.getD i "") = none) ∧
    (0 < usedCount k i → ∃ r, st.requestCounts (ks.getD i "") =
      some ⟨usedCount k i, r⟩ ∧ t0 ≤ r ∧ r < t0 + MINUTE_IN_MS)

/-- `AIService.summarizeDocument` on the Gemini provider path, after the
cache was missed: dispatch `callGeminiAPI` and re-wrap any error — a
message containing `429` becomes the rate-limit advice, anything else is
wrapped as a generic summary failure. -/
def summarizeDocument (cfg : AIConfig) (net : Nat → Except JsError (List Char))
    (now : Nat) (st : AIState) : Except JsError AIResponse × AIState × Nat :=
  match callGeminiAPI cfg net now st with
  | (.ok r, st₁, n) => (.ok r, st₁, n)
  | (.error e, st₁, n) =>
    if includesCL e.message ("429".toList) then
      (.error
        { message :=
            ("Rate limit exceeded. Please try again in a moment or add your own API key in settings.".toList),
          status := none }, st₁, n)
    else
      (.error
        { message := ("Failed to generate summary: ".toList) ++ e.message,
          status := none }, st₁, n)

end AIService

/-- A configured credential pool for concrete runs: four distinct keys of
the shape the build process injects (`AIzaSy` prefix, length over 30, no
placeholder markers). -/
def testKeys : List String :=
  ["AIzaSyTestPoolCredential00000001", "AIzaSyTestPoolCredential00000002",
   "AIzaSyTestPoolCredential00000003", "AIzaSyTestPoolCredential00000004"]

/-- A remote endpoint that fails transiently on its first invocation and
succeeds afterwards. -/
def netFailOnce : Nat → Except JsError (List Char) := fun i =>
  if i = 0 then .error { message := "network timeout".toList, status := none }
  else .ok ("ok".toList)

/-- A typical privacy-policy anchor. -/
def privAnchor : TCDetector.Anchor :=
  { href := "https://x.com/privacy-policy".toList,
    text := "privacy policy".toList, ariaLabel := [], title := [] }

/-- What `analyzeLink` emits for `privAnchor`. -/
def privLink : TCDetector.DetectedLink :=
  { url := "https://x.com/privacy-policy".toList,
    text := "privacy policy".toList,
    type := TCDetector.DocType.privacy, confidence := 223/348 }

/-- A committed terms candidate unrelated to `privLink`. -/
def tLink : TCDetector.DetectedLink :=
  { url := "https://x.com/tos".toList, text := "Terms".toList,
    type := TCDetector.DocType.terms, confidence := 1 }

/-- An anchor stuffed with every terms keyword (each single-word keyword
also as a whole token) whose href carries a terms URL pattern: its
keyword ratio is `236/225` and the URL bonus lifts the confidence to
`697/450 > 1.5`. -/
def maxTermsAnchor : TCDetector.Anchor :=
  { href := "https://example.com/terms".toList,
    text := ("legal terms of service terms of use terms & conditions " ++
      "terms and conditions end user license agreement licensing agreement " ++
      "user agreement service agreement user terms service terms " ++
      "website terms platform terms tos eula").toList,
    ariaLabel := [], title := [] }

namespace TCDetector

theorem map_len_sum_cast (kws : List (List Char)) :
    ((kws.map (fun kw => (kw.length : ℚ))).sum) = (lenSum kws : ℚ) := by
  induction kws with
  | nil => simp [lenSum]
  | cons k ks ih =>
    simp only [lenSum, List.map_cons, List.sum_cons] at ih ⊢
    rw [ih]
    push_cast
    ring

theorem map_score_sum_cast (text : List Char) (kws : List (List Char)) :
    ((kws.map (fun kw =>
      if includesCL text kw then
        (kw.length : ℚ) +
          (if (splitSp text).any (fun w => w == kw) then (kw.length : ℚ) * (1/2) else 0)
      else 0)).sum) = (scoreNumTwice text kws : ℚ) / 2 := by
  induction kws with
  | nil => simp [scoreNumTwice]
  | cons k ks ih =>
    simp only [scoreNumTwice, List.map_cons, List.sum_cons] at *
    rw [ih]
    by_cases h1 : includesCL text k
    · by_cases h2 : (splitSp text).any (fun w => w == k)
      · simp only [h1, h2, if_true]
        push_cast
        ring
      · simp only [h1, h2, if_true, if_false]
        push_cast
        ring
    · simp only [h1, if_false]
      push_cast
      ring

/-- `calculateScore` equals a ratio of natural numbers, enabling kernel
evaluation of scores on concrete anchors. -/
theorem calculateScore_eq (text : List Char) (kws : List (List Char)) :
    calculateScore text kws =
      if 0 < lenSum kws then (scoreNumTwice text kws : ℚ) / (2 * lenSum kws) else 0 := by
  unfold calculateScore
  rw [map_len_sum_cast, map_score_sum_cast]
  by_cases h : 0 < lenSum kws
  · have hq : (0 : ℚ) < (lenSum kws : ℚ) := by exact_mod_cast h
    rw [if_pos hq, if_pos h]
    rw [div_div]
  · have hq : ¬ ((0 : ℚ) < (lenSum kws : ℚ)) := by exact_mod_cast h
    rw [if_neg hq, if_neg h]

theorem scoreNumTwice_le (text : List Char) (kws : List (List Char)) :
    scoreNumTwice text kws ≤ 3 * lenSum kws := by
  induction kws with
  | nil => simp [scoreNumTwice, lenSum]
  | cons k ks ih =>
    simp only [scoreNumTwice, lenSum, List.map_cons, List.sum_cons] at *
    have hk : (if includesCL text k then
        2 * k.length + (if (splitSp text).any (fun w => w == k) then k.length else 0)
      else 0) ≤ 3 * k.length := by
      by_cases h1 : includesCL text k <;> by_cases h2 : (splitSp text).any (fun w => w == k) <;>
        simp [h1, h2] <;> omega
    omega

theorem calculateScore_nonneg (text : List Char) (kws : List (List Char)) :
    0 ≤ calculateScore text kws := by
  rw [calculateScore_eq]
  by_cases h : 0 < lenSum kws
  · rw [if_pos h]; positivity
  · rw [if_neg h]

theorem calculateScore_le (text : List Char) (kws : List (List Char)) :
    calculateScore text kws ≤ 3/2 := by
  rw [calculateScore_eq]
  by_cases h : 0 < lenSum kws
  · rw [if_pos h]
    have hm : (0 : ℚ) < 2 * (lenSum kws : ℚ) := by positivity
    rw [div_le_iff₀ hm]
    have := scoreNumTwice_le text kws
    have hc : (scoreNumTwice text kws : ℚ) ≤ 3 * (lenSum kws : ℚ) := by exact_mod_cast this
    nlinarith
  · rw [if_neg h]; norm_num

theorem typeScores_nonneg (a : Anchor) (ty : DocType) : 0 ≤ typeScores a ty := by
  unfold typeScores
  have h1 := calculateScore_nonneg (combinedText a) (keywordsOf ty)
  by_cases h : getUrlBonus (lowerCL a.href) = some ty <;> simp [h] <;> linarith

theorem typeScores_le_two (a : Anchor) (ty : DocType) : typeScores a ty ≤ 2 := by
  unfold typeScores
  have h1 := calculateScore_le (combinedText a) (keywordsOf ty)
  by_cases h : getUrlBonus (lowerCL a.href) = some ty <;> simp [h] <;> linarith

end TCDetector

namespace AIService

theorem callGeminiAPI_state (cfg : AIConfig) (net : Nat → Except JsError (List Char))
    (now : Nat) (st : AIState) :
    (callGeminiAPI cfg net now st).2.1 = dispatchStep cfg st now := by
  unfold callGeminiAPI dispatchStep
  cases h : getAvailableApiKey cfg now st with
  | mk r st₁ =>
    cases r with
    | error e => rfl
    | ok key => cases net 0 <;> rfl

end AIService

namespace RetryHelper

/-- A fatal error on some attempt ends the loop right there. -/
theorem withRetryAux_fatal {α : Type} (op : Nat → Except JsError α)
    (start r : Nat) (e : JsError) (hop : op start = .error e)
    (hfatal : shouldNotRetry e = true) :
    withRetryAux op start r = (.error e, start + 1) := by
  unfold withRetryAux
  rw [hop]
  simp [hfatal]

/-- Transient failures on attempts `start..start+m-1` followed by success
on attempt `start+m` (with attempts remaining) give the success outcome
after exactly `m + 1` further invocations. -/
theorem withRetryAux_success {α : Type} (op : Nat → Except JsError α) (v : α) :
    ∀ (m start r : Nat), m ≤ r →
    (∀ j, j < m → ∃ e, op (start + j) = .error e ∧ shouldNotRetry e = false) →
    op (start + m) = .ok v →
    withRetryAux op start r = (.ok v, start + m + 1) := by
  intro m
  induction m with
  | zero =>
    intro start r _ _ hok
    unfold withRetryAux
    rw [show start + 0 = start from rfl] at hok
    rw [hok]
  | succ m ih =>
    intro start r hm hfail hok
    obtain ⟨r', rfl⟩ : ∃ r', r = r' + 1 := ⟨r - 1, by omega⟩
    obtain ⟨e₀, he₀, hsn⟩ := hfail 0 (by omega)
    unfold withRetryAux
    rw [show start + 0 = start from rfl] at he₀
    rw [he₀]
    simp only [hsn, Bool.false_eq_true, if_false]
    have hrec := ih (start + 1) r' (by omega)
      (fun j hj => by
        obtain ⟨e, he, hs⟩ := hfail (j + 1) (by omega)
        exact ⟨e, by rw [show start + 1 + j = start + (j + 1) by omega]; exact he, hs⟩)
      (by rw [show start + 1 + m = start + (m + 1) by omega]; exact hok)
    rw [hrec, Prod.mk.injEq]
    exact ⟨rfl, by omega⟩

/-- Transient failures on every attempt propagate the last error after
all allowed invocations. -/
theorem withRetryAux_exhaust {α : Type} (op : Nat → Except JsError α)
    (e : Nat → JsError) :
    ∀ (r start : Nat),
    (∀ j, j ≤ r → op (start + j) = .error (e (start + j)) ∧
      shouldNotRetry (e (start + j)) = false) →
    withRetryAux op start r = (.error (e (start + r)), start + r + 1) := by
  intro r
  induction r with
  | zero =>
    intro start hfail
    obtain ⟨h1, h2⟩ := hfail 0 (by omega)
    rw [show start + 0 = start from rfl] at h1 h2
    unfold withRetryAux
    rw [h1]
    simp [h2]
  | succ r ih =>
    intro start hfail
    obtain ⟨h1, h2⟩ := hfail 0 (by omega)
    rw [show start + 0 = start from rfl] at h1 h2
    unfold withRetryAux
    rw [h1]
    simp only [h2, Bool.false_eq_true, if_false]
    have hrec := ih (start + 1) (fun j hj => by
      have := hfail (j + 1) (by omega)
      rw [show start + (j + 1) = start + 1 + j by omega] at this
      exact this)
    rw [hrec, Prod.mk.injEq]
    refine ⟨?_, by omega⟩
    rw [show start + 1 + r = start + (r + 1) by omega]

end RetryHelper

/-- Claim C6: `withRetry` classification behaviour.  A non-retryable error
(authentication / forbidden / invalid-key / quota message, or a 4xx
`status`) on the first attempt propagates immediately with the operation
invoked exactly once; transient failures on the first `m ≤ maxRetries`
attempts followed by a success return that success with exactly `m + 1 ≤
maxRetries + 1` invocations (`maxAttempts = maxRetries + 1` being the
total attempt budget of the loop); when every attempt fails transiently
the last error is propagated. -/
theorem C6_retry_classification (α : Type) :
    (∀ (op : Nat → Except JsError α) (maxRetries : Nat) (e : JsError),
      op 0 = .error e → RetryHelper.shouldNotRetry e = true →
      RetryHelper.withRetry op maxRetries = .error e ∧
        RetryHelper.invocations op maxRetries = 1) ∧
    (∀ (op : Nat → Except JsError α) (maxRetries m : Nat) (v : α),
      m ≤ maxRetries →
      (∀ j, j < m → ∃ e, op j = .error e ∧ RetryHelper.shouldNotRetry e = false) →
      op m = .ok v →
      RetryHelper.withRetry op maxRetries = .ok v ∧
        RetryHelper.invocations op maxRetries = m + 1 ∧
        RetryHelper.invocations op maxRetries ≤ maxRetries + 1) ∧
    (∀ (op : Nat → Except JsError α) (maxRetries : Nat) (e : Nat → JsError),
      (∀ j, j ≤ maxRetries → op j = .error (e j) ∧
        RetryHelper.shouldNotRetry (e j) = false) →
      RetryHelper.withRetry op maxRetries = .error (e maxRetries)) := by
  refine ⟨?_, ?_, ?_⟩
  · intro op maxRetries e hop hfatal
    have h := RetryHelper.withRetryAux_fatal op 0 maxRetries e hop hfatal
    unfold RetryHelper.withRetry RetryHelper.invocations
    rw [h]
    exact ⟨rfl, rfl⟩
  · intro op maxRetries m v hm hfail hok
    have h := RetryHelper.withRetryAux_success op v m 0 maxRetries hm
      (fun j hj => by simpa using hfail j hj) (by simpa using hok)
    unfold RetryHelper.withRetry RetryHelper.invocations
    rw [h]
    refine ⟨rfl, by simp, by simp; omega⟩
  · intro op maxRetries e hfail
    have h := RetryHelper.withRetryAux_exhaust op e maxRetries 0
      (fun j hj => by simpa using hfail j hj)
    unfold RetryHelper.withRetry
    rw [h]
    simp

/-- Claim C6 witness: concrete instances of the three branches — a bare
`unauthorized` error is never retried (one invocation); one transient
`network error` followed by success returns the success with two of the
four allowed invocations; four transient failures propagate the last
error. -/
theorem C6_retry_classification_witness :
    (RetryHelper.withRetry (fun _ => (.error ⟨"unauthorized".toList, none⟩ : Except JsError Bool)) 3 =
        .error ⟨"unauthorized".toList, none⟩ ∧
      RetryHelper.invocations (fun _ => (.error ⟨"unauthorized".toList, none⟩ : Except JsError Bool)) 3 = 1) ∧
    (RetryHelper.withRetry
        (fun i => if i = 0 then (.error ⟨"network error".toList, none⟩ : Except JsError Bool) else .ok true) 3 =
        .ok true ∧
      RetryHelper.invocations
        (fun i => if i = 0 then (.error ⟨"network error".toList, none⟩ : Except JsError Bool) else .ok true) 3 = 2) ∧
    RetryHelper.withRetry (fun _ => (.error ⟨"network error".toList, none⟩ : Except JsError Bool)) 3 =
      .error ⟨"network error".toList, none⟩ := by
  obtain ⟨hfatal, hsucc, hexhaust⟩ := C6_retry_classification Bool
  refine ⟨hfatal _ 3 _ rfl (by decide), ?_, ?_⟩
  · have h := hsucc (fun i => if i = 0 then (.error ⟨"network error".toList, none⟩ : Except JsError Bool) else .ok true)
      3 1 true (by omega)
      (fun j hj => ⟨⟨"network error".toList, none⟩, by
        have : j = 0 := by omega
        subst this
        exact ⟨rfl, by decide⟩⟩)
      rfl
    exact ⟨h.1, h.2.1⟩
  · refine hexhaust _ 3 (fun _ => ⟨"network error".toList, none⟩) (fun j hj => ⟨rfl, ?_⟩)
    have hne : RetryHelper.shouldNotRetry ⟨"network error".toList, none⟩ = false := by decide
    exact hne

/-- Claim C7 counterexample: the response text `true` contains no
well-formed JSON object (it parses as the JSON boolean `true`, and holds
no brace-delimited object), yet `parseAIResponse` returns a degraded
result with zero key points — not the single explanatory key point the
claim promises for every such text. -/
theorem C7_counterexample :
    jsonParse ("true".toList) = some (Json.bool true) ∧
    AIService.jsonMatchExtract ("true".toList) = none ∧
    (AIService.parseAIResponse ("true".toList)).keyPoints.length = 0 ∧
    (AIService.parseAIResponse ("true".toList)).riskScore = 0 := by
  exact ⟨rfl, rfl, rfl, rfl⟩

/-- Claim C7 (amended): for every response text on which `JSON.parse` of
the extracted brace-delimited portion (or, without one, of the whole
text) fails — or parses to JSON `null`, whose member access then throws —
parsing raises no exception and returns the degraded fallback: riskScore
`0`, exactly one key point, empty redFlags and dataRights.  (Texts that
parse as a non-object JSON value, such as `true`, also degrade without
an exception but may carry zero key points.) -/
theorem C7_parse_failure_degrades (responseText : List Char)
    (h : jsonParse ((AIService.jsonMatchExtract responseText).getD responseText) = none ∨
         jsonParse ((AIService.jsonMatchExtract responseText).getD responseText) = some Json.null) :
    AIService.parseAIResponse responseText = AIService.fallbackResponse ∧
    (AIService.parseAIResponse responseText).riskScore = 0 ∧
    (AIService.parseAIResponse responseText).keyPoints.length = 1 ∧
    (AIService.parseAIResponse responseText).redFlags = [] ∧
    (AIService.parseAIResponse responseText).dataRights = [] := by
  have hmain : AIService.parseAIResponse responseText = AIService.fallbackResponse := by
    simp only [AIService.parseAIResponse]
    rcases h with h | h <;> rw [h]
    rfl
  refine ⟨hmain, ?_, ?_, ?_, ?_⟩ <;> rw [hmain] <;> rfl

/-- Claim C7 witness: the scenario text `I cannot process this.` fails to
parse and yields the degraded summary with riskScore `0` and exactly one
key point. -/
theorem C7_parse_failure_degrades_witness :
    (AIService.parseAIResponse ("I cannot process this.".toList)).riskScore = 0 ∧
    (AIService.parseAIResponse ("I cannot process this.".toList)).keyPoints.length = 1 := by
  have h := C7_parse_failure_degrades ("I cannot process this.".toList) (Or.inl rfl)
  exact ⟨h.2.1, h.2.2.1⟩

/-- Claim C9 counterexample: a detector holding one candidate, destroyed
and then re-initialized (before any new scan), still reports that
candidate — the candidate set is not cleared by `destroy()` nor reset by
`init()`. -/
theorem C9_counterexample :
    TCDetector.getDetectedLinks
      (TCDetector.init (TCDetector.destroy
        { detectedLinks :=
            [{ url := "https://example.com/terms".toList, text := "Terms".toList,
               type := TCDetector.DocType.terms, confidence := 1 }],
          indicators := ["https://example.com/terms".toList],
          observing := true, isInitialized := true })) ≠ [] := by
  simp [TCDetector.getDetectedLinks, TCDetector.init, TCDetector.destroy]

/-- Claim C9 (amended): `destroy()` stops mutation observation, clears the
initialized flag and removes every indicator attachment, but the candidate
set survives: `getDetectedLinks()` after `destroy()` followed by `init()`
(before any new scan completes) returns exactly the candidates from
before the destroy. -/
theorem C9_destroy_keeps_candidates (st : TCDetector.TCState) :
    (TCDetector.destroy st).observing = false ∧
    (TCDetector.destroy st).indicators = [] ∧
    (TCDetector.destroy st).isInitialized = false ∧
    (TCDetector.init (TCDetector.destroy st)).isInitialized = true ∧
    TCDetector.getDetectedLinks (TCDetector.init (TCDetector.destroy st)) =
      TCDetector.getDetectedLinks st := by
  refine ⟨rfl, rfl, rfl, ?_, ?_⟩ <;>
    simp [TCDetector.init, TCDetector.destroy, TCDetector.getDetectedLinks]

/-- Claim C1 counterexample: on a cache miss with a configured pool, a
remote call that fails transiently once (and would succeed on retry) is
surfaced to the caller as an error after exactly one remote invocation —
whereas `RetryHelper.withRetry` over the very same operation returns the
success.  The dispatch therefore does not go through the Retry Policy. -/
theorem C1_counterexample :
    (AIService.summarizeDocument ⟨testKeys, ""⟩ netFailOnce 0 AIService.AIState.initial).2.2 = 1 ∧
    (AIService.summarizeDocument ⟨testKeys, ""⟩ netFailOnce 0 AIService.AIState.initial).1 =
      .error ⟨("Failed to generate summary: network timeout").toList, none⟩ ∧
    RetryHelper.withRetry netFailOnce 3 = .ok ("ok".toList) := by
  exact ⟨rfl, rfl, rfl⟩

/-- Claim C1 (amended): whenever credential selection succeeds, a
cache-miss `summarizeDocument` dispatch invokes the remote endpoint
exactly once — never through `withRetry` — and a failing remote call's
error (unless a 429 rate-limit message) is surfaced immediately, wrapped
as a generic summary failure. -/
theorem C1_no_retry_dispatch (cfg : AIService.AIConfig)
    (net : Nat → Except JsError (List Char)) (now : Nat)
    (st st₁ : AIService.AIState) (key : String) (e : JsError)
    (hkey : AIService.getAvailableApiKey cfg now st = (.ok key, st₁)) :
    (AIService.summarizeDocument cfg net now st).2.2 = 1 ∧
    (net 0 = .error e → includesCL e.message ("429".toList) = false →
      (AIService.summarizeDocument cfg net now st).1 =
        .error ⟨("Failed to generate summary: ".toList) ++ e.message, none⟩) := by
  unfold AIService.summarizeDocument AIService.callGeminiAPI
  rw [hkey]
  constructor
  · cases hnet : net 0 with
    | error e₂ =>
      by_cases h4 : includesCL e₂.message (['4', '2', '9'] : List Char)
      · simp [h4]
      · simp [h4]
    | ok t => rfl
  · intro hnet h429
    rw [hnet]
    have h429b : includesCL e.message (['4', '2', '9'] : List Char) = false := h429
    simp [h429b]

/-- Claim C1 witness: the amended dispatch property at the concrete pool,
fresh state and once-failing endpoint. -/
theorem C1_no_retry_dispatch_witness :
    (AIService.summarizeDocument ⟨testKeys, ""⟩ netFailOnce 0 AIService.AIState.initial).2.2 = 1 ∧
    (AIService.summarizeDocument ⟨testKeys, ""⟩ netFailOnce 0 AIService.AIState.initial).1 =
      .error ⟨("Failed to generate summary: network timeout").toList, none⟩ := by
  have h := C1_no_retry_dispatch ⟨testKeys, ""⟩ netFailOnce 0
    AIService.AIState.initial _ _ ⟨"network timeout".toList, none⟩ rfl
  exact ⟨h.1, h.2 rfl rfl⟩

set_option maxRecDepth 40000 in
/-- Per-category scores of the typical privacy anchor. -/
theorem privAnchor_typeScores :
    TCDetector.typeScores privAnchor TCDetector.DocType.terms = 0 ∧
    TCDetector.typeScores privAnchor TCDetector.DocType.privacy = 223/348 ∧
    TCDetector.typeScores privAnchor TCDetector.DocType.cookies = 0 := by
  have hb : TCDetector.getUrlBonus (lowerCL privAnchor.href) =
      some TCDetector.DocType.privacy := by decide
  have ht : TCDetector.scoreNumTwice (TCDetector.combinedText privAnchor)
      (TCDetector.keywordsOf TCDetector.DocType.terms) = 0 := by decide
  have hp : TCDetector.scoreNumTwice (TCDetector.combinedText privAnchor)
      (TCDetector.keywordsOf TCDetector.DocType.privacy) = 49 := by decide
  have hc : TCDetector.scoreNumTwice (TCDetector.combinedText privAnchor)
      (TCDetector.keywordsOf TCDetector.DocType.cookies) = 0 := by decide
  have lt : TCDetector.lenSum (TCDetector.keywordsOf TCDetector.DocType.terms) = 225 := by decide
  have lp : TCDetector.lenSum (TCDetector.keywordsOf TCDetector.DocType.privacy) = 174 := by decide
  have lc : TCDetector.lenSum (TCDetector.keywordsOf TCDetector.DocType.cookies) = 112 := by decide
  refine ⟨?_, ?_, ?_⟩ <;>
    unfold TCDetector.typeScores <;>
    rw [TCDetector.calculateScore_eq] <;>
    simp [hb, ht, hp, hc, lt, lp, lc] <;>
    norm_num

/-- The typical privacy anchor is emitted as `privLink`. -/
theorem analyzeLink_privAnchor :
    TCDetector.analyzeLink privAnchor = some privLink := by
  obtain ⟨ht, hp, hc⟩ := privAnchor_typeScores
  simp only [TCDetector.analyzeLink, TCDetector.bestType, List.foldl]
  rw [ht, hp]
  norm_num [hp, hc]
  rfl

set_option maxRecDepth 40000 in
/-- Per-category scores of the keyword-saturated terms anchor. -/
theorem maxTermsAnchor_typeScores :
    TCDetector.typeScores maxTermsAnchor TCDetector.DocType.terms = 697/450 ∧
    TCDetector.typeScores maxTermsAnchor TCDetector.DocType.privacy = 0 ∧
    TCDetector.typeScores maxTermsAnchor TCDetector.DocType.cookies = 0 := by
  have hb : TCDetector.getUrlBonus (lowerCL maxTermsAnchor.href) =
      some TCDetector.DocType.terms := by decide
  have ht : TCDetector.scoreNumTwice (TCDetector.combinedText maxTermsAnchor)
      (TCDetector.keywordsOf TCDetector.DocType.terms) = 472 := by decide
  have hp : TCDetector.scoreNumTwice (TCDetector.combinedText maxTermsAnchor)
      (TCDetector.keywordsOf TCDetector.DocType.privacy) = 0 := by decide
  have hc : TCDetector.scoreNumTwice (TCDetector.combinedText maxTermsAnchor)
      (TCDetector.keywordsOf TCDetector.DocType.cookies) = 0 := by decide
  have lt : TCDetector.lenSum (TCDetector.keywordsOf TCDetector.DocType.terms) = 225 := by decide
  have lp : TCDetector.lenSum (TCDetector.keywordsOf TCDetector.DocType.privacy) = 174 := by decide
  have lc : TCDetector.lenSum (TCDetector.keywordsOf TCDetector.DocType.cookies) = 112 := by decide
  refine ⟨?_, ?_, ?_⟩ <;>
    unfold TCDetector.typeScores <;>
    rw [TCDetector.calculateScore_eq] <;>
    simp [hb, ht, hp, hc, lt, lp, lc] <;>
    norm_num

/-- The keyword-saturated terms anchor is emitted with confidence
`697/450`. -/
theorem analyzeLink_maxTermsAnchor :
    (TCDetector.analyzeLink maxTermsAnchor).map TCDetector.DetectedLink.confidence =
      some (697/450) := by
  obtain ⟨ht, hp, hc⟩ := maxTermsAnchor_typeScores
  simp only [TCDetector.analyzeLink, TCDetector.bestType, List.foldl]
  rw [ht, hp]
  norm_num [ht, hc]

/-- Claim C3 counterexample: an anchor whose combined text contains every
terms keyword (the single-word ones as whole tokens) and whose href
matches a terms URL pattern is emitted with confidence `697/450 ≈ 1.549`,
strictly above the claimed `1.5` ceiling. -/
theorem C3_counterexample :
    (TCDetector.analyzeLink maxTermsAnchor).map TCDetector.DetectedLink.confidence =
      some (697/450) ∧ ¬ ((697/450 : ℚ) ≤ 3/2) := by
  exact ⟨analyzeLink_maxTermsAnchor, by norm_num⟩

/-- Claim C3 (amended): for every anchor the confidence of an emitted
`DetectedLink` lies in `[0, 2]` — the keyword ratio with exact-match bonus
stays within `[0, 1.5]` and the flat URL-pattern bonus adds at most
`0.5`; the `1.5` ceiling itself is exceeded by some anchors. -/
theorem C3_confidence_bounds (a : TCDetector.Anchor) (d : TCDetector.DetectedLink)
    (h : TCDetector.analyzeLink a = some d) :
    0 ≤ d.confidence ∧ d.confidence ≤ 2 := by
  simp only [TCDetector.analyzeLink] at h
  split at h
  · have hd := Option.some.inj h
    subst hd
    exact ⟨TCDetector.typeScores_nonneg _ _, TCDetector.typeScores_le_two _ _⟩
  · exact absurd h (by simp)

/-- Claim C3 witness: the bounds at the typical privacy anchor. -/
theorem C3_confidence_bounds_witness :
    TCDetector.analyzeLink privAnchor = some privLink ∧
    0 ≤ privLink.confidence ∧ privLink.confidence ≤ 2 :=
  ⟨analyzeLink_privAnchor, C3_confidence_bounds privAnchor privLink analyzeLink_privAnchor⟩

namespace TCDetector

/-- Everything the main pass accepts is a non-duplicate of the committed
candidate set. -/
theorem mainPass_aux (committed : List DetectedLink) :
    ∀ (anchors : List Anchor) (acc : List DetectedLink),
    (∀ x ∈ acc, isDuplicate committed x = false) →
    ∀ d ∈ anchors.foldl (fun newLinks a =>
      match analyzeLink a with
      | some d => if ¬ isDuplicate committed d then newLinks ++ [d] else newLinks
      | none => newLinks) acc, isDuplicate committed d = false := by
  intro anchors
  induction anchors with
  | nil => intro acc hacc d hd; exact hacc d hd
  | cons a as ih =>
    intro acc hacc d hd
    simp only [List.foldl_cons] at hd
    refine ih _ ?_ d hd
    intro x hx
    cases hA : analyzeLink a with
    | none => rw [hA] at hx; exact hacc x hx
    | some d₀ =>
      rw [hA] at hx
      by_cases hdup : isDuplicate committed d₀ = true
      · simp only [hdup, not_true_eq_false, if_false] at hx
        exact hacc x hx
      · have hx2 : x ∈ acc ++ [d₀] := by simpa [hdup] using hx
        rcases List.mem_append.mp hx2 with hx3 | hx3
        · exact hacc x hx3
        · rw [List.mem_singleton.mp hx3]
          exact Bool.eq_false_iff.mpr hdup

theorem mem_mainPass (committed : List DetectedLink) (anchors : List Anchor)
    (d : DetectedLink) (hd : d ∈ mainPass committed anchors) :
    isDuplicate committed d = false :=
  mainPass_aux committed anchors [] (by simp) d hd

/-- Everything the footer pass accepts is a non-duplicate of the
committed candidate set. -/
theorem footerPass_aux (committed : List DetectedLink) :
    ∀ (anchors : List Anchor) (acc : List DetectedLink),
    (∀ x ∈ acc, isDuplicate committed x = false) →
    ∀ d ∈ anchors.foldl (fun footerLinks a =>
      match analyzeLink a with
      | some d =>
        if ¬ isDuplicate committed d ∧
            ¬ footerLinks.any (fun existing => existing.url = d.url) then
          footerLinks ++ [d]
        else footerLinks
      | none => footerLinks) acc, isDuplicate committed d = false := by
  intro anchors
  induction anchors with
  | nil => intro acc hacc d hd; exact hacc d hd
  | cons a as ih =>
    intro acc hacc d hd
    simp only [List.foldl_cons] at hd
    refine ih _ ?_ d hd
    intro x hx
    cases hA : analyzeLink a with
    | none => rw [hA] at hx; exact hacc x hx
    | some d₀ =>
      rw [hA] at hx
      by_cases hcond : ¬ (isDuplicate committed d₀ = true) ∧
          ¬ ((acc.any fun existing => existing.url = d₀.url) = true)
      · have hx2 : x ∈ acc ++ [d₀] := by simpa [hcond.1, hcond.2] using hx
        rcases List.mem_append.mp hx2 with hx3 | hx3
        · exact hacc x hx3
        · rw [List.mem_singleton.mp hx3]
          exact Bool.eq_false_iff.mpr hcond.1
      · have hx2 : x ∈ acc := by
          rcases not_and_or.mp hcond with hc | hc
          · simpa [not_not.mp hc] using hx
          · have hc2 := not_not.mp hc
            by_cases hd0 : isDuplicate committed d₀ = true
            · simpa [hd0] using hx
            · simpa [hd0, hc2] using hx
        exact hacc x hx2

theorem mem_footerPass (committed : List DetectedLink) (anchors : List Anchor)
    (d : DetectedLink) (hd : d ∈ footerPass committed anchors) :
    isDuplicate committed d = false :=
  footerPass_aux committed anchors [] (by simp) d hd

/-- Everything a scan accepts is a non-duplicate of the pre-scan
candidate set. -/
theorem mem_scanNewLinks (st : TCState) (anchors fAnchors : List Anchor)
    (d : DetectedLink) (hd : d ∈ scanNewLinks st anchors fAnchors) :
    isDuplicate st.detectedLinks d = false := by
  simp only [scanNewLinks] at hd
  split at hd
  · rcases List.mem_append.mp hd with h | h
    · exact mem_mainPass _ _ _ h
    · exact mem_footerPass _ _ _ h
  · exact mem_mainPass _ _ _ hd

end TCDetector

/-- Claim C2 counterexample: one single scan pass over a page holding the
same privacy anchor twice accepts it twice — `isDuplicate` only checks
the committed set, not the acceptances of the running pass — leaving two
candidates with the same url and the same (text, type) pair. -/
theorem C2_counterexample :
    (TCDetector.scanForLinks TCDetector.TCState.initial [privAnchor, privAnchor] []).detectedLinks =
      [privLink, privLink] ∧
    ¬ ((TCDetector.scanForLinks TCDetector.TCState.initial
        [privAnchor, privAnchor] []).detectedLinks.Pairwise
          (fun x y => ¬ (x.url = y.url) ∧ ¬ (x.text = y.text ∧ x.type = y.type))) := by
  have hscan : (TCDetector.scanForLinks TCDetector.TCState.initial
      [privAnchor, privAnchor] []).detectedLinks = [privLink, privLink] := by
    simp [TCDetector.scanForLinks, TCDetector.scanNewLinks, TCDetector.mainPass,
      TCDetector.TCState.initial, analyzeLink_privAnchor, TCDetector.isDuplicate]
  refine ⟨hscan, ?_⟩
  rw [hscan]
  simp

/-- Claim C2 (amended): every candidate accepted during a scan pass is a
non-duplicate — by url, and by (text, type) — of every candidate already
committed when the pass began; so candidates accepted in different passes
never collide, but two acceptances within one and the same pass may share
a url or a (text, type) pair. -/
theorem C2_no_cross_pass_duplicates (st : TCDetector.TCState)
    (anchors fAnchors : List TCDetector.Anchor)
    (d e : TCDetector.DetectedLink)
    (hd : d ∈ TCDetector.scanNewLinks st anchors fAnchors)
    (he : e ∈ st.detectedLinks) :
    ¬ (e.url = d.url) ∧ ¬ (e.text = d.text ∧ e.type = d.type) := by
  have h := TCDetector.mem_scanNewLinks st anchors fAnchors d hd
  unfold TCDetector.isDuplicate at h
  rw [List.any_eq_false] at h
  have he2 := h e he
  simpa using he2

/-- Claim C2 witness: scanning a page holding the privacy anchor, against
a candidate set already holding an unrelated terms candidate, accepts the
privacy link, and it collides with the committed candidate in neither
url nor (text, type). -/
theorem C2_no_cross_pass_duplicates_witness :
    ¬ (tLink.url = privLink.url) ∧ ¬ (tLink.text = privLink.text ∧ tLink.type = privLink.type) := by
  have hmem : privLink ∈ TCDetector.scanNewLinks
      { detectedLinks := [tLink], indicators := [], observing := true, isInitialized := true }
      [privAnchor] [] := by
    simp [TCDetector.scanNewLinks, TCDetector.mainPass, analyzeLink_privAnchor,
      TCDetector.isDuplicate, tLink, privLink]
  exact C2_no_cross_pass_duplicates _ [privAnchor] [] privLink tLink hmem (by simp)

namespace SmartCache

theorem objGet_cons {α : Type} (p : String × CacheEntry α) (ps : Cache α)
    (k : String) :
    objGet (p :: ps) k = if p.1 == k then some p.2 else objGet ps k := by
  by_cases h : p.1 == k <;> simp [objGet, List.find?, h]

theorem objDelete_cons {α : Type} (p : String × CacheEntry α) (ps : Cache α)
    (k : String) :
    objDelete (p :: ps) k =
      if p.1 == k then objDelete ps k else p :: objDelete ps k := by
  unfold objDelete
  rw [List.filter_cons]
  by_cases h : p.1 == k <;> simp [h]

theorem objGet_eq_none_iff {α : Type} (c : Cache α) (k : String) :
    objGet c k = none ↔ c.any (fun p => p.1 == k) = false := by
  induction c with
  | nil => simp [objGet]
  | cons p ps ih =>
    rw [objGet_cons, List.any_cons]
    by_cases h : p.1 == k
    · simp [h]
    · simp only [h, if_false, Bool.false_or]
      simpa using ih

theorem objGet_map_set {α : Type} (c : Cache α) (k : String) (e : CacheEntry α) :
    objGet (c.map (fun p => if p.1 == k then (k, e) else p)) k =
      (objGet c k).map (fun _ => e) := by
  induction c with
  | nil => simp [objGet]
  | cons p ps ih =>
    by_cases h : p.1 == k
    · rw [List.map_cons, if_pos h, objGet_cons, objGet_cons, if_pos h,
        if_pos (show ((k, e).1 == k) = true by simp)]
      rfl
    · rw [List.map_cons, if_neg h, objGet_cons, objGet_cons, if_neg h, if_neg h]
      exact ih

theorem objGet_map_other {α : Type} (c : Cache α) (k k₂ : String)
    (e : CacheEntry α) (hne : k₂ ≠ k) :
    objGet (c.map (fun p => if p.1 == k then (k, e) else p)) k₂ = objGet c k₂ := by
  have hbeq : ((k, e).1 == k₂) = false := by
    simp only [beq_eq_false_iff_ne, ne_eq]
    exact fun h => hne h.symm
  induction c with
  | nil => rfl
  | cons p ps ih =>
    by_cases h : p.1 == k
    · have hpk : p.1 = k := by simpa using h
      have hp : (p.1 == k₂) = false := by
        rw [hpk]
        exact hbeq
      rw [List.map_cons, if_pos h, objGet_cons, objGet_cons, hbeq, hp]
      simp only [Bool.false_eq_true, if_false]
      exact ih
    · rw [List.map_cons, if_neg h, objGet_cons, objGet_cons]
      by_cases hp : p.1 == k₂
      · rw [if_pos hp, if_pos hp]
      · rw [if_neg hp, if_neg hp]
        exact ih

theorem objGet_append_right {α : Type} (c l : Cache α) (k : String)
    (h : objGet c k = none) : objGet (c ++ l) k = objGet l k := by
  induction c with
  | nil => rfl
  | cons p ps ih =>
    rw [objGet_cons] at h
    by_cases hp : p.1 == k
    · rw [if_pos hp] at h
      cases h
    · rw [if_neg hp] at h
      rw [List.cons_append, objGet_cons, if_neg hp]
      exact ih h

theorem objGet_objSet_self {α : Type} (c : Cache α) (k : String) (e : CacheEntry α) :
    objGet (objSet c k e) k = some e := by
  unfold objSet
  by_cases hany : c.any (fun p => p.1 == k) = true
  · rw [if_pos hany, objGet_map_set]
    cases hx : objGet c k with
    | none => rw [objGet_eq_none_iff] at hx; rw [hx] at hany; cases hany
    | some x => rfl
  · rw [if_neg hany]
    have hnone : objGet c k = none :=
      (objGet_eq_none_iff c k).mpr (Bool.eq_false_iff.mpr hany)
    rw [objGet_append_right c _ k hnone, objGet_cons]
    simp

theorem objGet_objSet_other {α : Type} (c : Cache α) (k k₂ : String)
    (e : CacheEntry α) (hne : k₂ ≠ k) :
    objGet (objSet c k e) k₂ = objGet c k₂ := by
  have hbeq : ((k, e).1 == k₂) = false := by
    simp only [beq_eq_false_iff_ne, ne_eq]
    exact fun h => hne h.symm
  unfold objSet
  by_cases hany : c.any (fun p => p.1 == k) = true
  · rw [if_pos hany]
    exact objGet_map_other c k k₂ e hne
  · rw [if_neg hany]
    induction c with
    | nil => rw [List.nil_append, objGet_cons, hbeq]; rfl
    | cons p ps ih =>
      rw [List.cons_append, objGet_cons, objGet_cons]
      by_cases hp : p.1 == k₂
      · rw [if_pos hp, if_pos hp]
      · rw [if_neg hp, if_neg hp]
        exact ih (by
          rw [List.any_cons] at hany
          intro hq
          exact hany (by rw [hq]; simp))

theorem objGet_objDelete_self {α : Type} (c : Cache α) (k : String) :
    objGet (objDelete c k) k = none := by
  induction c with
  | nil => rfl
  | cons p ps ih =>
    rw [objDelete_cons]
    by_cases h : p.1 == k
    · rw [if_pos h]
      exact ih
    · rw [if_neg h, objGet_cons, if_neg h]
      exact ih

theorem objGet_objDelete_other {α : Type} (c : Cache α) (k k₂ : String)
    (hne : k₂ ≠ k) :
    objGet (objDelete c k) k₂ = objGet c k₂ := by
  induction c with
  | nil => rfl
  | cons p ps ih =>
    rw [objDelete_cons, objGet_cons]
    by_cases h : p.1 == k
    · have hpk : p.1 = k := by simpa using h
      have hp : (p.1 == k₂) = false := by
        rw [hpk]
        simp only [beq_eq_false_iff_ne, ne_eq]
        exact fun hh => hne hh.symm
      rw [if_pos h, hp]
      simp only [Bool.false_eq_true, if_false]
      exact ih
    · rw [if_neg h, objGet_cons]
      by_cases hp : p.1 == k₂
      · rw [if_pos hp, if_pos hp]
      · rw [if_neg hp, if_neg hp]
        exact ih

theorem length_objSet {α : Type} (c : Cache α) (k : String) (e : CacheEntry α) :
    (objSet c k e).length =
      if c.any (fun p => p.1 == k) = true then c.length else c.length + 1 := by
  unfold objSet
  split <;> simp

theorem length_objDelete_le {α : Type} (c : Cache α) (k : String) :
    (objDelete c k).length ≤ c.length :=
  List.length_filter_le _ c

theorem length_objDelete_lt {α : Type} (c : Cache α) (k : String)
    (h : c.any (fun p => p.1 == k) = true) :
    (objDelete c k).length < c.length := by
  induction c with
  | nil => cases h
  | cons p ps ih =>
    rw [objDelete_cons]
    by_cases hp : p.1 == k
    · rw [if_pos hp]
      have := length_objDelete_le ps k
      simp only [List.length_cons]
      omega
    · have hpf : (p.1 == k) = false := by simpa using hp
      rw [List.any_cons, hpf, Bool.false_or] at h
      rw [if_neg hp]
      have := ih h
      simp only [List.length_cons]
      omega

theorem length_objDelete_nodup {α : Type} (c : Cache α) (k : String)
    (hnodup : (keys c).Nodup) (h : c.any (fun p => p.1 == k) = true) :
    (objDelete c k).length + 1 = c.length := by
  induction c with
  | nil => cases h
  | cons p ps ih =>
    rw [keys, List.map_cons, List.nodup_cons] at hnodup
    rw [objDelete_cons]
    by_cases hp : p.1 == k
    · have hpk : p.1 = k := by simpa using hp
      have hfilter : objDelete ps k = ps := by
        unfold objDelete
        rw [List.filter_eq_self]
        intro q hq
        have hqk : q.1 ≠ k := by
          intro hqe
          exact hnodup.1 (by
            rw [hpk, ← hqe]
            exact List.mem_map_of_mem _ hq)
        simpa using hqk
      rw [if_pos hp, hfilter]
      simp
    · have hpf : (p.1 == k) = false := by simpa using hp
      rw [List.any_cons, hpf, Bool.false_or] at h
      rw [if_neg hp]
      have := ih hnodup.2 h
      simp only [List.length_cons]
      omega

theorem lruFold_mem {α : Type} (rest : List (String × CacheEntry α)) :
    ∀ (p₀ : String × CacheEntry α),
    (rest.foldl (fun oldest p =>
      if p.2.lastAccessed < oldest.2.lastAccessed then p else oldest) p₀) = p₀ ∨
    (rest.foldl (fun oldest p =>
      if p.2.lastAccessed < oldest.2.lastAccessed then p else oldest) p₀) ∈ rest := by
  induction rest with
  | nil => intro p₀; exact Or.inl rfl
  | cons q qs ih =>
    intro p₀
    rw [List.foldl_cons]
    rcases ih (if q.2.lastAccessed < p₀.2.lastAccessed then q else p₀) with h | h
    · rw [h]
      split
      · exact Or.inr (List.mem_cons_self _ _)
      · exact Or.inl rfl
    · exact Or.inr (List.mem_cons_of_mem _ h)

theorem lruFold_min {α : Type} (rest : List (String × CacheEntry α)) :
    ∀ (p₀ : String × CacheEntry α),
    (rest.foldl (fun oldest p =>
      if p.2.lastAccessed < oldest.2.lastAccessed then p else oldest) p₀).2.lastAccessed ≤
        p₀.2.lastAccessed ∧
    ∀ q ∈ rest,
      (rest.foldl (fun oldest p =>
        if p.2.lastAccessed < oldest.2.lastAccessed then p else oldest) p₀).2.lastAccessed ≤
          q.2.lastAccessed := by
  induction rest with
  | nil => intro p₀; exact ⟨le_refl _, by simp⟩
  | cons q qs ih =>
    intro p₀
    rw [List.foldl_cons]
    obtain ⟨ih1, ih2⟩ := ih (if q.2.lastAccessed < p₀.2.lastAccessed then q else p₀)
    constructor
    · refine le_trans ih1 ?_
      split <;> omega
    · intro r hr
      rcases List.mem_cons.mp hr with hr | hr
      · subst hr
        refine le_trans ih1 ?_
        split <;> omega
      · exact ih2 r hr

theorem lru_min_entry {α : Type} (c : Cache α) (hne : c ≠ []) :
    ∃ p ∈ c, p.1 = lruKey c ∧ ∀ q ∈ c, p.2.lastAccessed ≤ q.2.lastAccessed := by
  cases c with
  | nil => exact absurd rfl hne
  | cons p₀ rest =>
    refine ⟨rest.foldl (fun oldest p =>
      if p.2.lastAccessed < oldest.2.lastAccessed then p else oldest) p₀, ?_, ?_, ?_⟩
    · rcases lruFold_mem rest p₀ with h | h
      · rw [h]; exact List.mem_cons_self _ _
      · exact List.mem_cons_of_mem _ h
    · rfl
    · intro q hq
      obtain ⟨h1, h2⟩ := lruFold_min rest p₀
      rcases List.mem_cons.mp hq with hq | hq
      · subst hq; exact h1
      · exact h2 q hq

theorem lruKey_any {α : Type} (c : Cache α) (hne : c ≠ []) :
    c.any (fun p => p.1 == lruKey c) = true := by
  obtain ⟨p, hp, hpk, _⟩ := lru_min_entry c hne
  rw [List.any_eq_true]
  exact ⟨p, hp, by simp [hpk]⟩

theorem length_set_le {α : Type} (maxSize now : Nat) (c : Cache α) (k : String)
    (v : α) (h0 : 0 < maxSize) (hc : c.length ≤ maxSize) :
    (SmartCache.set maxSize now c k v).length ≤ maxSize := by
  unfold SmartCache.set
  by_cases hfull : maxSize ≤ c.length
  · rw [if_pos hfull]
    have hne : c ≠ [] := by
      intro h
      rw [h] at hfull
      simp at hfull
      omega
    have hdel := length_objDelete_lt c (lruKey c) (lruKey_any c hne)
    rw [length_objSet]
    split <;> omega
  · rw [if_neg hfull]
    rw [length_objSet]
    split <;> omega

end SmartCache

/-- Claim C5: sequences of `set` calls never push the entry count past the
configured capacity; when an insert happens at (or beyond) capacity, the
key chosen for eviction belongs to an entry whose `lastAccessed` is
minimal over the whole store; and the concrete capacity-2 scenario —
insert A, insert B, get A, insert C — leaves exactly the keys A and C,
with B evicted. -/
theorem C5_capacity_and_lru (α : Type) (maxSize : Nat) (c : SmartCache.Cache α)
    (ops : List (String × α × Nat)) (h0 : 0 < maxSize) (hc : c.length ≤ maxSize) :
    (ops.foldl (fun acc op => SmartCache.set maxSize op.2.2 acc op.1 op.2.1) c).length ≤
      maxSize ∧
    (maxSize ≤ c.length →
      ∃ p ∈ c, p.1 = SmartCache.lruKey c ∧
        ∀ q ∈ c, p.2.lastAccessed ≤ q.2.lastAccessed) ∧
    SmartCache.keys (SmartCache.set 2 3
      ((SmartCache.get 2 (SmartCache.set 2 1
        (SmartCache.set 2 0 ([] : SmartCache.Cache Nat) "A" 10) "B" 20) "A").2)
      "C" 30) = ["A", "C"] := by
  refine ⟨?_, ?_, by decide⟩
  · induction ops generalizing c with
    | nil => exact hc
    | cons op ops ih =>
      rw [List.foldl_cons]
      exact ih _ (SmartCache.length_set_le maxSize op.2.2 c op.1 op.2.1 h0 hc)
  · intro hfull
    have hne : c ≠ [] := by
      intro h
      rw [h] at hfull
      simp at hfull
      omega
    exact SmartCache.lru_min_entry c hne

/-- Claim C5 witness: the capacity bound and the LRU-minimality at a
concrete full capacity-2 store, together with the A/B/C scenario. -/
theorem C5_capacity_and_lru_witness :
    (([("D", (40 : Nat), 4)] : List (String × Nat × Nat)).foldl
      (fun acc op => SmartCache.set 2 op.2.2 acc op.1 op.2.1)
      ([("A", ⟨10, 0, 2, 1⟩), ("B", ⟨20, 1, 1, 0⟩)] : SmartCache.Cache Nat)).length ≤ 2 ∧
    (∃ p ∈ ([("A", ⟨10, 0, 2, 1⟩), ("B", ⟨20, 1, 1, 0⟩)] : SmartCache.Cache Nat),
      p.1 = SmartCache.lruKey ([("A", ⟨10, 0, 2, 1⟩), ("B", ⟨20, 1, 1, 0⟩)] : SmartCache.Cache Nat) ∧
      ∀ q ∈ ([("A", ⟨10, 0, 2, 1⟩), ("B", ⟨20, 1, 1, 0⟩)] : SmartCache.Cache Nat),
        p.2.lastAccessed ≤ q.2.lastAccessed) ∧
    SmartCache.keys (SmartCache.set 2 3
      ((SmartCache.get 2 (SmartCache.set 2 1
        (SmartCache.set 2 0 ([] : SmartCache.Cache Nat) "A" 10) "B" 20) "A").2)
      "C" 30) = ["A", "C"] := by
  have h := C5_capacity_and_lru Nat 2
    ([("A", ⟨10, 0, 2, 1⟩), ("B", ⟨20, 1, 1, 0⟩)] : SmartCache.Cache Nat)
    [("D", 40, 4)] (by decide) (by decide)
  exact ⟨h.1, h.2.1 (by decide), h.2.2⟩

/-- Claim C8: a `set(k, v)` followed by a `get(k)` within the TTL returns
`v`; the entry starts with `hitCount = 0` and `createdAt = lastAccessedAt`
at the set time; the get leaves it with `hitCount = 1` and `lastAccessedAt`
refreshed to the get time; and in general every non-expired `get` on a
present key increments its hit counter by exactly one and refreshes its
last-access time — so `hitCount` is non-decreasing until eviction or
expiry. -/
theorem C8_roundtrip_hits (α : Type) (c : SmartCache.Cache α) (k : String)
    (v : α) (t₀ t₁ : Nat) (httl : t₁ - t₀ ≤ SmartCache.EXPIRY_MS) :
    (SmartCache.get t₁ (SmartCache.set SmartCache.MAX_CACHE_SIZE t₀ c k v) k).1 =
      some v ∧
    SmartCache.objGet (SmartCache.set SmartCache.MAX_CACHE_SIZE t₀ c k v) k =
      some ⟨v, t₀, t₀, 0⟩ ∧
    SmartCache.objGet
        ((SmartCache.get t₁ (SmartCache.set SmartCache.MAX_CACHE_SIZE t₀ c k v) k).2) k =
      some ⟨v, t₀, t₁, 1⟩ ∧
    (∀ (c₂ : SmartCache.Cache α) (e : SmartCache.CacheEntry α) (t₂ : Nat),
      SmartCache.objGet c₂ k = some e → t₂ - e.timestamp ≤ SmartCache.EXPIRY_MS →
      (SmartCache.get t₂ c₂ k).1 = some e.data ∧
      SmartCache.objGet ((SmartCache.get t₂ c₂ k).2) k =
        some { e with hits := e.hits + 1, lastAccessed := t₂ }) := by
  have hgen : ∀ (c₂ : SmartCache.Cache α) (e : SmartCache.CacheEntry α) (t₂ : Nat),
      SmartCache.objGet c₂ k = some e → t₂ - e.timestamp ≤ SmartCache.EXPIRY_MS →
      (SmartCache.get t₂ c₂ k).1 = some e.data ∧
      SmartCache.objGet ((SmartCache.get t₂ c₂ k).2) k =
        some { e with hits := e.hits + 1, lastAccessed := t₂ } := by
    intro c₂ e t₂ hget httl₂
    have hcond : ¬ (t₂ - e.timestamp > SmartCache.EXPIRY_MS) := by omega
    unfold SmartCache.get
    rw [hget]
    refine ⟨by simp [hcond], ?_⟩
    have h2 := SmartCache.objGet_objSet_self c₂ k
      { e with hits := e.hits + 1, lastAccessed := t₂ }
    simpa [hcond] using h2
  have hset : SmartCache.objGet (SmartCache.set SmartCache.MAX_CACHE_SIZE t₀ c k v) k =
      some ⟨v, t₀, t₀, 0⟩ := by
    unfold SmartCache.set
    exact SmartCache.objGet_objSet_self _ _ _
  obtain ⟨hg1, hg2⟩ := hgen _ ⟨v, t₀, t₀, 0⟩ t₁ hset httl
  exact ⟨hg1, hset, hg2, hgen⟩

/-- Claim C8 witness: the round trip at a fresh cache with key `k`,
payload `7`, set at time 0 and read at time 5. -/
theorem C8_roundtrip_hits_witness :
    (SmartCache.get 5 (SmartCache.set SmartCache.MAX_CACHE_SIZE 0
      ([] : SmartCache.Cache Nat) "k" 7) "k").1 = some 7 ∧
    SmartCache.objGet
        ((SmartCache.get 5 (SmartCache.set SmartCache.MAX_CACHE_SIZE 0
          ([] : SmartCache.Cache Nat) "k" 7) "k").2) "k" =
      some ⟨7, 0, 5, 1⟩ := by
  have h := C8_roundtrip_hits Nat ([] : SmartCache.Cache Nat) "k" 7 0 5 (by decide)
  exact ⟨h.1, h.2.2.1⟩

/-- Claim C10: a `set` on a key already present while the store is exactly
at capacity still evicts the least-recently-accessed entry before writing;
when that key is not itself the LRU entry, an unrelated entry is removed
and the store ends with capacity − 1 entries — strictly fewer than
capacity. -/
theorem C10_update_at_capacity (α : Type) (c : SmartCache.Cache α)
    (maxSize now : Nat) (k : String) (v : α)
    (hnodup : (SmartCache.keys c).Nodup)
    (hfull : c.length = maxSize) (h0 : 0 < maxSize)
    (hmem : c.any (fun p => p.1 == k) = true)
    (hk : ¬ (k = SmartCache.lruKey c)) :
    (SmartCache.set maxSize now c k v).length = maxSize - 1 ∧
    SmartCache.objGet (SmartCache.set maxSize now c k v) (SmartCache.lruKey c) = none ∧
    (SmartCache.set maxSize now c k v).length < maxSize := by
  have hne : c ≠ [] := by
    intro h
    rw [h] at hfull
    simp at hfull
    omega
  have hlru := SmartCache.lruKey_any c hne
  have hdel := SmartCache.length_objDelete_nodup c (SmartCache.lruKey c) hnodup hlru
  have hkeep : SmartCache.objGet (SmartCache.objDelete c (SmartCache.lruKey c)) k =
      SmartCache.objGet c k := SmartCache.objGet_objDelete_other c _ k hk
  have hsome : SmartCache.objGet c k ≠ none := by
    intro h
    rw [SmartCache.objGet_eq_none_iff] at h
    rw [h] at hmem
    cases hmem
  have hany₁ : (SmartCache.objDelete c (SmartCache.lruKey c)).any
      (fun p => p.1 == k) = true := by
    by_cases h : (SmartCache.objDelete c (SmartCache.lruKey c)).any
        (fun p => p.1 == k) = true
    · exact h
    · exfalso
      have := (SmartCache.objGet_eq_none_iff _ k).mpr (Bool.eq_false_iff.mpr h)
      rw [hkeep] at this
      exact hsome this
  have hlen : (SmartCache.set maxSize now c k v).length = maxSize - 1 := by
    unfold SmartCache.set
    rw [if_pos (by omega)]
    rw [SmartCache.length_objSet, if_pos hany₁]
    omega
  refine ⟨hlen, ?_, by omega⟩
  unfold SmartCache.set
  rw [if_pos (by omega)]
  rw [SmartCache.objGet_objSet_other _ k _ _ (fun h => hk h.symm)]
  exact SmartCache.objGet_objDelete_self c _

/-- Claim C10 witness: updating key A while the capacity-2 store
{A (last accessed 2), B (last accessed 1)} is full evicts B and leaves a
single entry. -/
theorem C10_update_at_capacity_witness :
    (SmartCache.set 2 5
      ([("A", ⟨10, 0, 2, 1⟩), ("B", ⟨20, 1, 1, 0⟩)] : SmartCache.Cache Nat)
      "A" 99).length = 1 ∧
    SmartCache.objGet (SmartCache.set 2 5
      ([("A", ⟨10, 0, 2, 1⟩), ("B", ⟨20, 1, 1, 0⟩)] : SmartCache.Cache Nat)
      "A" 99)
      (SmartCache.lruKey
        ([("A", ⟨10, 0, 2, 1⟩), ("B", ⟨20, 1, 1, 0⟩)] : SmartCache.Cache Nat)) = none := by
  have h := C10_update_at_capacity Nat
    ([("A", ⟨10, 0, 2, 1⟩), ("B", ⟨20, 1, 1, 0⟩)] : SmartCache.Cache Nat)
    2 5 "A" 99 (by decide) (by decide) (by decide) (by decide) (by decide)
  exact ⟨h.1, h.2.1⟩

namespace AIService

theorem usedCount_succ (k i : Nat) (hi : i < 4) :
    usedCount (k + 1) i = if i = k % 4 then usedCount k i + 1 else usedCount k i := by
  simp only [usedCount]
  split_ifs <;> omega

theorem usedCount_self (k : Nat) : usedCount k (k % 4) = k / 4 := by
  simp [usedCount]

theorem usedCount_le (k i : Nat) (hk : k ≤ 60) (hi : i < 4) : usedCount k i ≤ 15 := by
  simp only [usedCount]
  split_ifs <;> omega

theorem usedCount_sixty (i : Nat) (hi : i < 4) : usedCount 60 i = 15 := by
  simp only [usedCount]
  split_ifs <;> omega

theorem balanced_initial (ks : List String) (t0 : Nat) :
    balanced ks t0 0 AIState.initial := by
  refine ⟨rfl, fun i hi => ⟨fun _ => rfl, fun h => ?_⟩⟩
  have h0 : usedCount 0 i = 0 := by simp [usedCount]
  rw [h0] at h
  exact absurd h (lt_irrefl 0)

theorem getD_ne (ks : List String) (hlen : ks.length = 4) (hnodup : ks.Nodup)
    (i j : Nat) (hi : i < 4) (hj : j < 4) (hij : i ≠ j) :
    ks.getD i "" ≠ ks.getD j "" := by
  have hi₂ : i < ks.length := by omega
  have hj₂ : j < ks.length := by omega
  rw [List.getD_eq_getElem?_getD, List.getD_eq_getElem?_getD,
    List.getElem?_eq_getElem hi₂, List.getElem?_eq_getElem hj₂]
  intro h
  simp only [Option.getD_some] at h
  exact hij (List.Nodup.getElem_inj_iff hnodup |>.mp h)

theorem rotateProbe_succ (keys : List String) (now n : Nat) (st : AIState) :
    rotateProbe keys now (n + 1) st =
      (if (isKeyRateLimited now (getNextApiKey keys st).1 (getNextApiKey keys st).2).1 then
        rotateProbe keys now n
          (isKeyRateLimited now (getNextApiKey keys st).1 (getNextApiKey keys st).2).2
      else (some (getNextApiKey keys st).1,
        (isKeyRateLimited now (getNextApiKey keys st).1 (getNextApiKey keys st).2).2)) := rfl

theorem dispatch_step_balanced (ks : List String) (p : String) (t0 k now : Nat)
    (st : AIState)
    (hlen : ks.length = 4) (hval : hasDefaultApiKeys ks = true)
    (hnodup : ks.Nodup) (hk : k < 60)
    (hb : balanced ks t0 k st)
    (hnow1 : t0 ≤ now) (hnow2 : now < t0 + MINUTE_IN_MS) :
    balanced ks t0 (k + 1) (dispatchStep ⟨ks, p⟩ st now) := by
  obtain ⟨hidx, hcounts⟩ := hb
  have h4 : k % 4 < 4 := by omega
  have hget : getNextApiKey ks st =
      (ks.getD (k % 4) "", (⟨(k % 4 + 1) % ks.length, st.requestCounts⟩ : AIState)) := by
    unfold getNextApiKey
    rw [hidx]
  have hother : ∀ i, i < 4 → i ≠ k % 4 →
      ∀ (v : KeyStats),
      (setCount (⟨(k % 4 + 1) % ks.length, st.requestCounts⟩ : AIState)
        (ks.getD (k % 4) "") v).requestCounts (ks.getD i "") =
        st.requestCounts (ks.getD i "") := by
    intro i hi hik v
    have hne : ks.getD i "" ≠ ks.getD (k % 4) "" :=
      getD_ne ks hlen hnodup i (k % 4) hi h4 hik
    show (if ks.getD i "" = ks.getD (k % 4) "" then some v
      else st.requestCounts (ks.getD i "")) = st.requestCounts (ks.getD i "")
    rw [if_neg hne]
  have hidx₂ : ∀ (key : String) (v : KeyStats),
      (setCount (⟨(k % 4 + 1) % ks.length, st.requestCounts⟩ : AIState) key
        v).currentKeyIndex = (k + 1) % 4 := by
    intro key v
    show (k % 4 + 1) % ks.length = (k + 1) % 4
    rw [hlen]
    omega
  rcases Nat.eq_zero_or_pos (usedCount k (k % 4)) with hz | hpos
  · -- the probed slot has never been used yet
    have hnone : st.requestCounts (ks.getD (k % 4) "") = none :=
      (hcounts (k % 4) h4).1 hz
    have hlim : isKeyRateLimited now (ks.getD (k % 4) "")
        (⟨(k % 4 + 1) % ks.length, st.requestCounts⟩ : AIState) =
        (false, (⟨(k % 4 + 1) % ks.length, st.requestCounts⟩ : AIState)) := by
      unfold isKeyRateLimited
      rw [hnone]
    have hprobe : rotateProbe ks now ks.length st =
        (some (ks.getD (k % 4) ""),
          (⟨(k % 4 + 1) % ks.length, st.requestCounts⟩ : AIState)) := by
      have hfuel : rotateProbe ks now ks.length st = rotateProbe ks now (3 + 1) st := by
        rw [hlen]
      rw [hfuel, rotateProbe_succ, hget]
      simp only [hlim]
      simp
    have havail : getAvailableApiKey ⟨ks, p⟩ now st =
        (.ok (ks.getD (k % 4) ""),
          (⟨(k % 4 + 1) % ks.length, st.requestCounts⟩ : AIState)) := by
      unfold getAvailableApiKey
      simp only [hval, if_true, hprobe]
    have hincr : dispatchStep ⟨ks, p⟩ st now =
        setCount (⟨(k % 4 + 1) % ks.length, st.requestCounts⟩ : AIState)
          (ks.getD (k % 4) "") ⟨1, now⟩ := by
      unfold dispatchStep
      rw [havail]
      unfold incrementKeyUsage
      simp only [hnone]
    rw [hincr]
    refine ⟨hidx₂ _ _, fun i hi => ?_⟩
    by_cases hik : i = k % 4
    · constructor
      · intro h0
        rw [usedCount_succ _ _ hi, if_pos hik] at h0
        omega
      · intro _
        have huc : usedCount (k + 1) i = 1 := by
          rw [usedCount_succ _ _ hi, if_pos hik, hik, hz]
        rw [huc]
        refine ⟨now, ?_, hnow1, hnow2⟩
        show (if ks.getD i "" = ks.getD (k % 4) "" then some ⟨1, now⟩
          else st.requestCounts (ks.getD i "")) = some ⟨1, now⟩
        rw [if_pos (by rw [hik])]
    · have huc : usedCount (k + 1) i = usedCount k i := by
        rw [usedCount_succ _ _ hi, if_neg hik]
      rw [hother i hi hik, huc]
      exact hcounts i hi
  · -- the probed slot carries k / 4 requests inside the live window
    obtain ⟨r, hsome, hr1, hr2⟩ := (hcounts (k % 4) h4).2 hpos
    rw [usedCount_self] at hsome
    have hnotexp : ¬ (MINUTE_IN_MS ≤ now - r) := by omega
    have hrpm : ¬ (REQUESTS_PER_MINUTE ≤ k / 4) := by
      have hv : REQUESTS_PER_MINUTE = 15 := rfl
      omega
    have hlim : isKeyRateLimited now (ks.getD (k % 4) "")
        (⟨(k % 4 + 1) % ks.length, st.requestCounts⟩ : AIState) =
        (false, (⟨(k % 4 + 1) % ks.length, st.requestCounts⟩ : AIState)) := by
      unfold isKeyRateLimited
      simp only [hsome]
      rw [if_neg hnotexp, decide_eq_false hrpm]
    have hprobe : rotateProbe ks now ks.length st =
        (some (ks.getD (k % 4) ""),
          (⟨(k % 4 + 1) % ks.length, st.requestCounts⟩ : AIState)) := by
      have hfuel : rotateProbe ks now ks.length st = rotateProbe ks now (3 + 1) st := by
        rw [hlen]
      rw [hfuel, rotateProbe_succ, hget]
      simp only [hlim]
      simp
    have havail : getAvailableApiKey ⟨ks, p⟩ now st =
        (.ok (ks.getD (k % 4) ""),
          (⟨(k % 4 + 1) % ks.length, st.requestCounts⟩ : AIState)) := by
      unfold getAvailableApiKey
      simp only [hval, if_true, hprobe]
    have hincr : dispatchStep ⟨ks, p⟩ st now =
        setCount (⟨(k % 4 + 1) % ks.length, st.requestCounts⟩ : AIState)
          (ks.getD (k % 4) "") ⟨k / 4 + 1, r⟩ := by
      unfold dispatchStep
      rw [havail]
      unfold incrementKeyUsage
      simp only [hsome]
      rw [if_neg hnotexp]
    rw [hincr]
    refine ⟨hidx₂ _ _, fun i hi => ?_⟩
    by_cases hik : i = k % 4
    · constructor
      · intro h0
        rw [usedCount_succ _ _ hi, if_pos hik] at h0
        omega
      · intro _
        have huc : usedCount (k + 1) i = k / 4 + 1 := by
          rw [usedCount_succ _ _ hi, if_pos hik, hik, usedCount_self]
        rw [huc]
        refine ⟨r, ?_, hr1, hr2⟩
        show (if ks.getD i "" = ks.getD (k % 4) "" then some ⟨k / 4 + 1, r⟩
          else st.requestCounts (ks.getD i "")) = some ⟨k / 4 + 1, r⟩
        rw [if_pos (by rw [hik])]
    · have huc : usedCount (k + 1) i = usedCount k i := by
        rw [usedCount_succ _ _ hi, if_neg hik]
      rw [hother i hi hik, huc]
      exact hcounts i hi

theorem dispatchAll_balanced (ks : List String) (p : String) (t0 : Nat)
    (hlen : ks.length = 4) (hval : hasDefaultApiKeys ks = true)
    (hnodup : ks.Nodup) :
    ∀ (ts : List Nat) (k : Nat) (st : AIState),
    balanced ks t0 k st → k + ts.length ≤ 60 →
    (∀ t ∈ ts, t0 ≤ t ∧ t < t0 + MINUTE_IN_MS) →
    balanced ks t0 (k + ts.length)
      (ts.foldl (fun st t => dispatchStep ⟨ks, p⟩ st t) st) := by
  intro ts
  induction ts with
  | nil => intro k st hb _ _; simpa using hb
  | cons t ts ih =>
    intro k st hb hle hts
    rw [List.foldl_cons]
    have hk : k < 60 := by
      simp only [List.length_cons] at hle
      omega
    have hstep := dispatch_step_balanced ks p t0 k t st hlen hval hnodup hk hb
      (hts t (by simp)).1 (hts t (by simp)).2
    have hrec := ih (k + 1) _ hstep
      (by simp only [List.length_cons] at hle; omega)
      (fun u hu => hts u (by simp [hu]))
    have heq : k + (t :: ts).length = k + 1 + ts.length := by
      simp only [List.length_cons]
      omega
    rw [heq]
    exact hrec

end AIService

/-- Claim C4: with a configured pool of 4 distinct credentials (ceiling 15
requests per 60s window), any 60 consecutive dispatches whose times all
fall inside a single rate window, starting from the fresh orchestrator
state, distribute exactly 15/15/15/15 across the pool — and at no prefix
of those dispatches does any credential's recorded request count exceed
its ceiling. -/
theorem C4_rotation (a b c d p : String) (t0 : Nat) (ts : List Nat)
    (hval : AIService.hasDefaultApiKeys [a, b, c, d] = true)
    (hnodup : ([a, b, c, d] : List String).Nodup)
    (hlen60 : ts.length = 60)
    (hts : ∀ t ∈ ts, t0 ≤ t ∧ t < t0 + AIService.MINUTE_IN_MS) :
    (∀ key ∈ [a, b, c, d], ∃ r,
      (AIService.dispatchAll ⟨[a, b, c, d], p⟩ ts).requestCounts key =
        some ⟨15, r⟩) ∧
    (∀ n, ∀ key ∈ [a, b, c, d], ∀ s,
      (AIService.dispatchAll ⟨[a, b, c, d], p⟩ (ts.take n)).requestCounts key =
        some s → s.count ≤ 15) := by
  have hlen4 : ([a, b, c, d] : List String).length = 4 := rfl
  have hbal : ∀ (ts₂ : List Nat), ts₂.length ≤ 60 →
      (∀ t ∈ ts₂, t0 ≤ t ∧ t < t0 + AIService.MINUTE_IN_MS) →
      AIService.balanced [a, b, c, d] t0 ts₂.length
        (AIService.dispatchAll ⟨[a, b, c, d], p⟩ ts₂) := by
    intro ts₂ hl hcond
    have h := AIService.dispatchAll_balanced [a, b, c, d] p t0 hlen4 hval hnodup
      ts₂ 0 AIService.AIState.initial (AIService.balanced_initial _ _)
      (by omega) hcond
    simpa using h
  have hmem : ∀ key ∈ [a, b, c, d], ∃ i, i < 4 ∧
      ([a, b, c, d] : List String).getD i "" = key := by
    intro key hkey
    rcases (by simpa using hkey : key = a ∨ key = b ∨ key = c ∨ key = d) with
      h | h | h | h
    · exact ⟨0, by omega, h.symm⟩
    · exact ⟨1, by omega, h.symm⟩
    · exact ⟨2, by omega, h.symm⟩
    · exact ⟨3, by omega, h.symm⟩
  constructor
  · intro key hkey
    obtain ⟨i, hi, hgd⟩ := hmem key hkey
    have hb := hbal ts (by omega) hts
    rw [hlen60] at hb
    obtain ⟨r, hr, _, _⟩ := (hb.2 i hi).2
      (by rw [AIService.usedCount_sixty i hi]; omega)
    rw [AIService.usedCount_sixty i hi] at hr
    rw [hgd] at hr
    exact ⟨r, hr⟩
  · intro n key hkey s hs
    obtain ⟨i, hi, hgd⟩ := hmem key hkey
    have htan : (ts.take n).length ≤ 60 := by
      rw [List.length_take]
      omega
    have hb := hbal (ts.take n) htan (fun t ht => hts t (List.take_subset n ts ht))
    rcases Nat.eq_zero_or_pos (AIService.usedCount (ts.take n).length i) with hz | hpos
    · have hno := (hb.2 i hi).1 hz
      rw [hgd] at hno
      rw [hno] at hs
      cases hs
    · obtain ⟨r, hr, _, _⟩ := (hb.2 i hi).2 hpos
      rw [hgd] at hr
      rw [hr] at hs
      have hseq : s = ⟨AIService.usedCount (ts.take n).length i, r⟩ :=
        (Option.some.inj hs).symm
      rw [hseq]
      exact AIService.usedCount_le _ i htan hi

/-- Claim C4 witness: the four concrete pool keys, sixty dispatches all at
time 0, starting the window at 0. -/
theorem C4_rotation_witness :
    (∀ key ∈ ["AIzaSyTestPoolCredential00000001", "AIzaSyTestPoolCredential00000002",
        "AIzaSyTestPoolCredential00000003", "AIzaSyTestPoolCredential00000004"], ∃ r,
      (AIService.dispatchAll
        ⟨["AIzaSyTestPoolCredential00000001", "AIzaSyTestPoolCredential00000002",
          "AIzaSyTestPoolCredential00000003", "AIzaSyTestPoolCredential00000004"], ""⟩
        (List.replicate 60 0)).requestCounts key = some ⟨15, r⟩) ∧
    (∀ n, ∀ key ∈ ["AIzaSyTestPoolCredential00000001", "AIzaSyTestPoolCredential00000002",
        "AIzaSyTestPoolCredential00000003", "AIzaSyTestPoolCredential00000004"], ∀ s,
      (AIService.dispatchAll
        ⟨["AIzaSyTestPoolCredential00000001", "AIzaSyTestPoolCredential00000002",
          "AIzaSyTestPoolCredential00000003", "AIzaSyTestPoolCredential00000004"], ""⟩
        ((List.replicate 60 0).take n)).requestCounts key = some s →
      s.count ≤ 15) := by
  refine C4_rotation _ _ _ _ "" 0 (List.replicate 60 0) (by decide) (by decide)
    (by simp) ?_
  intro t ht
  have := List.eq_of_mem_replicate ht
  subst this
  refine ⟨Nat.le_refl 0, ?_⟩
  show (0 : Nat) < 0 + AIService.MINUTE_IN_MS
  have : AIService.MINUTE_IN_MS = 60000 := rfl
  omega
